import Mathlib

/-!
# Hospital triage queue: the priority function and the patient store

A shallow embedding of `src/main.cpp` (`Patient`, `calculate_priority`, `TriageQueue`)
together with theorems about it.

Modelling conventions.

* `double` values are rationals, and the arithmetic on them is modelled twice.
  `calculate_priority` is the source in exact arithmetic, without rounding; it carries the
  theorems about the formula, which rounding does not affect.  `calculate_priority_f64` is
  the source with the rounding of IEEE 754 binary64 (`roundDouble`) at the conversion of
  `wait_sec`, at the division by `60.0` and at the final addition, the only operations of the
  function that are not exact.  Two scores that are equal in exact arithmetic can differ in
  the last bit on `double`; the theorems that depend on how `treat_patient` (tolerance `1e-9`)
  and `list_queue` (exact comparison) treat such scores are stated for `treat_patient_f64`
  and `list_queue_f64`.  The methods `treat_patient_of` and `list_queue_of` take the
  evaluation of the score as a parameter; `treat_patient` and `list_queue` are their instances
  for exact arithmetic.
* `int` and `long long` values are mathematical integers (`Int`).  The two subtractions of
  `calculate_priority` are evaluated on the integers: they agree with the machine result
  whenever the machine expression is defined (signed overflow is undefined behaviour in C++).
  The id counter, which the store itself increments on every insertion, wraps modulo `2^32`
  (`wrapInt32`), so that the bound on the number of insertions is visible in the theorems.
  Where a theorem depends on the machine range of a stored field it says so (`Patient.inRange`).
* `std::unordered_map<int, Patient>` is the list of its key/record pairs in iteration order.
  A new key is put at the front; the theorems about one operation are stated for an arbitrary
  list, hence for every iteration order.
* `now_epoch()` is a parameter `now` of the operation that reads the clock.
* `std::sort` is a parameter `sort` of `list_queue`, constrained by the contract of the
  C++ standard (`StdSort`): the result is a permutation of the input that is ordered with
  respect to the comparator.  The order of equivalent elements is not specified.
-/

namespace HospitalQueue

/-! ## Data model -/

/-- The record `struct Patient`. -/
structure Patient where
  id : Int
  name : String
  age : Int
  severity : Int
  hr : Int
  sbp : Int
  spo2 : Int
  arrival : Int
  deriving DecidableEq

/-- A value-initialised `Patient` (`Patient p;` with the default member initialisers). -/
instance : Inhabited Patient := ⟨⟨0, "", 0, 0, 0, 0, 0, 0⟩⟩

/-- The range of the C++ type `int` (32 bits). -/
def inInt32 (x : Int) : Prop := -2147483648 ≤ x ∧ x ≤ 2147483647

instance (x : Int) : Decidable (inInt32 x) := by unfold inInt32; infer_instance

/-- The integer members of a patient that `calculate_priority` reads fit the type `int`. -/
def Patient.inRange (p : Patient) : Prop :=
  inInt32 p.age ∧ inInt32 p.severity ∧ inInt32 p.hr ∧ inInt32 p.sbp ∧ inInt32 p.spo2

instance (p : Patient) : Decidable p.inRange := by unfold Patient.inRange; infer_instance

/-! ## The priority function -/

/-- The function `calculate_priority` of the source, statement by statement, in exact
arithmetic: no operation rounds.  See `calculate_priority_f64` for the same function with
the rounding of `double`. -/
def calculate_priority (p : Patient) (now_sec : Int) : ℚ :=
  let base0 : ℚ := 100 - ((p.severity - 1 : Int) : ℚ) * 15
  let base1 : ℚ := if p.spo2 < 90 then base0 + 20 else if p.spo2 ≤ 94 then base0 + 10 else base0
  let base2 : ℚ := if p.hr ≥ 130 then base1 + 10 else base1
  let base3 : ℚ := if p.sbp < 90 then base2 + 15 else base2
  let base4 : ℚ := if p.age ≥ 65 then base3 + 5 else base3
  let wait_sec : Int := max 0 (now_sec - p.arrival)
  let minutes : ℚ := (wait_sec : ℚ) / 60
  base4 + min 30 (minutes * (1 / 2))

/-- The oxygen adjustment as the specification words it. -/
def oxyAdj (spo2 : Int) : ℚ := if spo2 < 90 then 20 else if 90 ≤ spo2 ∧ spo2 ≤ 94 then 10 else 0

/-- The heart-rate adjustment as the specification words it. -/
def hrAdj (hr : Int) : ℚ := if hr ≥ 130 then 10 else 0

/-- The blood-pressure adjustment as the specification words it. -/
def bpAdj (sbp : Int) : ℚ := if sbp < 90 then 15 else 0

/-- The age adjustment as the specification words it. -/
def ageAdj (age : Int) : ℚ := if age ≥ 65 then 5 else 0

/-- The wait bonus as the specification words it: `min(30, max(0, now - arrival) / 120)`. -/
def waitBonus (arrival now : Int) : ℚ := min 30 (((max 0 (now - arrival) : Int) : ℚ) / 120)

/-- The severity base `100 - 15 * (severity - 1)`. -/
def severityBase (severity : Int) : ℚ := 100 - 15 * ((severity : ℚ) - 1)

/-- The score as the specification words it: base plus the five adjustments. -/
def specScore (p : Patient) (now : Int) : ℚ :=
  severityBase p.severity + oxyAdj p.spo2 + hrAdj p.hr + bpAdj p.sbp + ageAdj p.age
    + waitBonus p.arrival now

/-! ## The patient store -/

/-- Two's-complement wrap of an integer to the type `int`. -/
def wrapInt32 (x : Int) : Int := (x + 2147483648) % 4294967296 - 2147483648

/-- The container `unordered_map<int, Patient>`: its entries in iteration order. -/
abbrev PatientMap := List (Int × Patient)

/-- The keys of the map, in iteration order. -/
def mapKeys (m : PatientMap) : List Int := m.map Prod.fst

/-- The records of the map, in iteration order. -/
def mapValues (m : PatientMap) : List Patient := m.map Prod.snd

/-- The lookup `patients.find(k)`: the record stored under `k`, if any. -/
def mapFind : PatientMap → Int → Option Patient
  | [], _ => none
  | kv :: rest, k => if kv.1 = k then some kv.2 else mapFind rest k

/-- Assignment through an iterator, `it->second = v`, for the entry with key `k`. -/
def mapReplace : PatientMap → Int → Patient → PatientMap
  | [], _, _ => []
  | kv :: rest, k, v => if kv.1 = k then (k, v) :: rest else kv :: mapReplace rest k v

/-- The statement `patients[k] = v`: overwrite the entry of `k`, or create it. -/
def mapAssign (m : PatientMap) (k : Int) (v : Patient) : PatientMap :=
  match mapFind m k with
  | some _ => mapReplace m k v
  | none => (k, v) :: m

/-- The expression `patients[k]` read as a value: the record under `k`; a missing key is
first created with a value-initialised record. -/
def mapIndex (m : PatientMap) (k : Int) : Patient × PatientMap :=
  match mapFind m k with
  | some v => (v, m)
  | none => (default, (k, default) :: m)

/-- The call `patients.erase(k)`. -/
def mapErase (m : PatientMap) (k : Int) : PatientMap := m.filter (fun kv => decide (kv.1 ≠ k))

/-- The state of a `TriageQueue` (the mutex carries no data). -/
structure TriageQueue where
  patients : PatientMap
  next_id : Int
  deriving DecidableEq

/-- The freshly constructed queue: no records, `next_id = 1`. -/
def TriageQueue.init : TriageQueue := ⟨[], 1⟩

/-- The method `add_patient`; `now` is the value of `now_epoch()`.  Returns the new id
and the new state. -/
def add_patient (s : TriageQueue) (now : Int) (name : String)
    (age severity hr sbp spo2 : Int) : Int × TriageQueue :=
  let p : Patient := ⟨s.next_id, name, age, severity, hr, sbp, spo2, now⟩
  (p.id, { patients := mapAssign s.patients p.id p, next_id := wrapInt32 (s.next_id + 1) })

/-- The method `update_patient`.  Returns the flag and the new state. -/
def update_patient (s : TriageQueue) (id age severity hr sbp spo2 : Int) : Bool × TriageQueue :=
  match mapFind s.patients id with
  | none => (false, s)
  | some old =>
    let upd : Patient := ⟨id, old.name, age, severity, hr, sbp, spo2, old.arrival⟩
    (true, { patients := mapReplace s.patients id upd, next_id := s.next_id })

/-- The three loop variables of `treat_patient`. -/
structure Best where
  best_id : Int
  best_pr : ℚ
  best_arrival : Int
  deriving DecidableEq

/-- The values of the loop variables before the loop: `-1`, `-1e18`, `LLONG_MAX`. -/
def Best.start : Best := ⟨-1, -1000000000000000000, 9223372036854775807⟩

/-- One iteration of the loop of `treat_patient`. -/
def treat_step (now : Int) (b : Best) (kv : Int × Patient) : Best :=
  let pr := calculate_priority kv.2 now
  if pr > b.best_pr ∨ (|pr - b.best_pr| < 1 / 1000000000 ∧ kv.2.arrival < b.best_arrival) then
    ⟨kv.1, pr, kv.2.arrival⟩
  else b

/-- The whole loop of `treat_patient` over the map in iteration order. -/
def treat_scan (now : Int) (m : PatientMap) : Best := m.foldl (treat_step now) Best.start

/-- The method `treat_patient`; `out` is the caller's record before the call and `now` the
value of `now_epoch()`.  Returns the flag, the caller's record after the call and the new
state. -/
def treat_patient (s : TriageQueue) (now : Int) (out : Patient) : Bool × Patient × TriageQueue :=
  if s.patients.isEmpty then (false, out, s)
  else
    let b := treat_scan now s.patients
    let r := mapIndex s.patients b.best_id
    (true, r.1, { patients := mapErase r.2 b.best_id, next_id := s.next_id })

/-- The comparator that `list_queue` hands to `std::sort`. -/
def list_queue_cmp (now : Int) (a b : Patient) : Bool :=
  let pa := calculate_priority a now
  let pb := calculate_priority b now
  if pa ≠ pb then decide (pa > pb) else decide (a.arrival < b.arrival)

/-- The requirement of the C++ standard on a comparator: a strict weak ordering. -/
structure StrictWeak (cmp : Patient → Patient → Bool) : Prop where
  irrefl : ∀ a, cmp a a = false
  trans : ∀ a b c, cmp a b = true → cmp b c = true → cmp a c = true
  incomp_trans : ∀ a b c, cmp a b = false → cmp b a = false → cmp b c = false →
    cmp c b = false → cmp a c = false ∧ cmp c a = false

/-- The contract of `std::sort` in the C++ standard: for a strict weak ordering the result
is a permutation of the input in which no later element is before an earlier one.  Nothing
is promised about the relative order of equivalent elements. -/
structure StdSort (sort : (Patient → Patient → Bool) → List Patient → List Patient) : Prop where
  perm : ∀ cmp l, StrictWeak cmp → List.Perm (sort cmp l) l
  ordered : ∀ cmp l, StrictWeak cmp → List.Pairwise (fun a b => cmp b a = false) (sort cmp l)

/-- The method `list_queue`; `now` is the value of `now_epoch()`. -/
def list_queue (sort : (Patient → Patient → Bool) → List Patient → List Patient)
    (s : TriageQueue) (now : Int) : List Patient :=
  sort (list_queue_cmp now) (mapValues s.patients)

/-- The method `clear_all`. -/
def clear_all (_s : TriageQueue) : TriageQueue := ⟨[], 1⟩

/-- One admissible `std::sort`: insertion sort that keeps equivalent elements in their
input order. -/
def stableSort (cmp : Patient → Patient → Bool) (l : List Patient) : List Patient :=
  List.insertionSort (fun a b => cmp b a = false) l

/-- Representation invariant of the map: no key occurs twice. -/
def KeysNodup (s : TriageQueue) : Prop := (mapKeys s.patients).Nodup

instance (s : TriageQueue) : Decidable (KeysNodup s) := by unfold KeysNodup; infer_instance

/-- Every stored record has integer members within the range of `int`. -/
def RecordsInRange (s : TriageQueue) : Prop := ∀ p ∈ mapValues s.patients, p.inRange

instance (s : TriageQueue) : Decidable (RecordsInRange s) := by
  unfold RecordsInRange; infer_instance

/-- Every record is stored under its own id. -/
def KeyIsId (s : TriageQueue) : Prop := ∀ kv ∈ s.patients, kv.2.id = kv.1

instance (s : TriageQueue) : Decidable (KeyIsId s) := by unfold KeyIsId; infer_instance

/-- The score scaled by 120, computed on the integers: 120 times the clinical part plus
the waiting time in seconds capped at 3600. -/
def score120 (p : Patient) (now : Int) : Int :=
  120 * (100 - 15 * (p.severity - 1)
      + (if p.spo2 < 90 then 20 else if p.spo2 ≤ 94 then 10 else 0)
      + (if p.hr ≥ 130 then 10 else 0)
      + (if p.sbp < 90 then 15 else 0)
      + (if p.age ≥ 65 then 5 else 0))
    + min 3600 (max 0 (now - p.arrival))

/-- What the loop of `treat_patient` has established after the entries `l`: the loop
variables describe an entry of `l`, no entry of `l` has a higher score, and no entry of `l`
with the same score arrived earlier. -/
def ScanInv (now : Int) (l : PatientMap) (b : Best) : Prop :=
  (∃ kv ∈ l, kv.1 = b.best_id ∧ calculate_priority kv.2 now = b.best_pr
      ∧ kv.2.arrival = b.best_arrival)
    ∧ ∀ q ∈ l, calculate_priority q.2 now ≤ b.best_pr
        ∧ (calculate_priority q.2 now = b.best_pr → b.best_arrival ≤ q.2.arrival)

/-- The store after two insertions within the same second (clock value 1000) of two
patients with the same clinical values. -/
def tiedStore : TriageQueue :=
  (add_patient (add_patient TriageQueue.init 1000 "A" 40 1 80 120 97).2
    1000 "C" 40 1 80 120 97).2

/-! ## Sequences of calls -/

/-- A call of one of the five public methods, with its arguments. -/
inductive Op where
  | add (name : String) (age severity hr sbp spo2 : Int)
  | update (id age severity hr sbp spo2 : Int)
  | treat
  | list
  | clear
  deriving DecidableEq

/-- What a call returns. -/
inductive Ret where
  | newId (id : Int)
  | updated (ok : Bool)
  | treated (found : Bool) (p : Patient)
  | listing (v : List Patient)
  | cleared
  deriving DecidableEq

/-- One call on the store at clock value `now`, made the way the request handlers of
`main` make it (`treat_patient` is handed a value-initialised record). -/
def step (sort : (Patient → Patient → Bool) → List Patient → List Patient)
    (s : TriageQueue) (now : Int) (op : Op) : Ret × TriageQueue :=
  match op with
  | Op.add name age severity hr sbp spo2 =>
    let r := add_patient s now name age severity hr sbp spo2
    (Ret.newId r.1, r.2)
  | Op.update id age severity hr sbp spo2 =>
    let r := update_patient s id age severity hr sbp spo2
    (Ret.updated r.1, r.2)
  | Op.treat =>
    let r := treat_patient s now default
    (Ret.treated r.1 r.2.1, r.2.2)
  | Op.list => (Ret.listing (list_queue sort s now), s)
  | Op.clear => (Ret.cleared, clear_all s)

/-- A sequence of calls, each with the clock value it reads; the results in order and the
final state. -/
def run (sort : (Patient → Patient → Bool) → List Patient → List Patient) :
    TriageQueue → List (Int × Op) → List Ret × TriageQueue
  | s, [] => ([], s)
  | s, c :: rest =>
    let r := step sort s c.1 c.2
    let rr := run sort r.2 rest
    (r.1 :: rr.1, rr.2)

/-- The ids among a list of results, in order. -/
def addedIds : List Ret → List Int
  | [] => []
  | Ret.newId id :: rest => id :: addedIds rest
  | _ :: rest => addedIds rest

/-- Whether a call is an `add_patient`. -/
def Op.isAdd : Op → Bool
  | Op.add _ _ _ _ _ _ => true
  | _ => false

/-- The number of `add_patient` calls in a sequence. -/
def numAdds (calls : List (Int × Op)) : Nat := (calls.filter (fun c => c.2.isAdd)).length

/-! ## The selection loop on scaled integer scores -/

/-- The loop variables of `treat_patient` with the score scaled by 120. -/
structure Best120 where
  best_id : Int
  best_pr120 : Int
  best_arrival : Int
  deriving DecidableEq

/-- The start values of the loop variables, the start score `-1e18` scaled by 120. -/
def Best120.start : Best120 := ⟨-1, -120000000000000000000, 9223372036854775807⟩

/-- One iteration of the loop of `treat_patient` as the design note of the specification
proposes it: scaled integer scores, the tolerance replaced by equality. -/
def treat_step120 (now : Int) (b : Best120) (kv : Int × Patient) : Best120 :=
  let pr := score120 kv.2 now
  if pr > b.best_pr120 ∨ (pr = b.best_pr120 ∧ kv.2.arrival < b.best_arrival) then
    ⟨kv.1, pr, kv.2.arrival⟩
  else b

/-- The whole loop on scaled integer scores. -/
def treat_scan120 (now : Int) (m : PatientMap) : Best120 :=
  m.foldl (treat_step120 now) Best120.start

/-- The calls of the scenario of the specification: insert A, insert B at the same clock
value `T`, then treat at `T`, then treat once more at `now2`. -/
def scenarioCalls (T now2 : Int) : List (Int × Op) :=
  [(T, Op.add "A" 40 1 80 120 97), (T, Op.add "B" 70 3 140 85 88), (T, Op.treat),
    (now2, Op.treat)]

/-- A store with a patient of severity 1 and a patient of severity 7. -/
def gapStore : TriageQueue :=
  ⟨[(2, ⟨2, "B", 70, 7, 140, 85, 88, 0⟩), (1, ⟨1, "A", 40, 1, 80, 120, 97, 1000⟩)], 3⟩

/-! ## Repeated treatment, the store invariant and reachable states -/

/-- Consecutive calls of `treat_patient`, one for each clock value of the list, each
handed a value-initialised record; the flags and records in order and the final state. -/
def treat_all : TriageQueue → List Int → List (Bool × Patient) × TriageQueue
  | s, [] => ([], s)
  | s, now :: rest =>
    let r := treat_patient s now default
    let rr := treat_all r.2.2 rest
    ((r.1, r.2.1) :: rr.1, rr.2)

/-- The store invariant: the map has no key twice (the guarantee of the container), every
record is stored under its own id, the counter is at least 1, and every key lies in
`[1, next_id)`. -/
def StoreInv (s : TriageQueue) : Prop :=
  KeysNodup s ∧ KeyIsId s ∧ 1 ≤ s.next_id ∧ ∀ k ∈ mapKeys s.patients, 1 ≤ k ∧ k < s.next_id

instance (s : TriageQueue) : Decidable (StoreInv s) := by unfold StoreInv; infer_instance

/-- The states the store can be in: the initial state and every state that a call of a
method produces from such a state, where an `add_patient` call is one whose increment of
the counter stays within `int` (an overflowing increment is undefined behaviour).
`list_queue` is a `const` method and produces no new state. -/
inductive Reachable : TriageQueue → Prop where
  | init : Reachable TriageQueue.init
  | add (s : TriageQueue) (now : Int) (name : String) (age severity hr sbp spo2 : Int) :
      Reachable s → s.next_id < 2147483647 →
      Reachable (add_patient s now name age severity hr sbp spo2).2
  | update (s : TriageQueue) (id age severity hr sbp spo2 : Int) :
      Reachable s → Reachable (update_patient s id age severity hr sbp spo2).2
  | treat (s : TriageQueue) (now : Int) (out : Patient) :
      Reachable s → Reachable (treat_patient s now out).2.2
  | clear (s : TriageQueue) : Reachable s → Reachable (clear_all s)

/-! ## Binary64 arithmetic -/

/-- Rounding of a rational to the nearest integer, a tie going to the even neighbour. -/
def roundHalfEven (q : ℚ) : Int :=
  let f : Int := ⌊q⌋
  let r : ℚ := q - (f : ℚ)
  if r < 1 / 2 then f else if 1 / 2 < r then f + 1 else if f % 2 = 0 then f else f + 1

/-- Rounding of a rational to the nearest value of the type `double` (IEEE 754 binary64:
53 significant bits, round to nearest, ties to even); the result is given as a rational.
The exponent range is not modelled: every non-zero value the priority function rounds lies
between 2^-7 and 2^63. -/
def roundDouble (x : ℚ) : ℚ :=
  if x = 0 then 0
  else
    let ulp : ℚ := (2 : ℚ) ^ (Int.log 2 |x| - 52)
    (roundHalfEven (x / ulp) : ℚ) * ulp

/-- The function `calculate_priority` as the compiled program evaluates it on `double`.
The clinical part is an integer below 2^53 for members of type `int`, so the operations
on it are exact; the conversion of `wait_sec`, the division by `60.0` and the final `+=`
round; the product with `0.5` and `min` are exact. -/
def calculate_priority_f64 (p : Patient) (now_sec : Int) : ℚ :=
  let base0 : ℚ := 100 - ((p.severity - 1 : Int) : ℚ) * 15
  let base1 : ℚ := if p.spo2 < 90 then base0 + 20 else if p.spo2 ≤ 94 then base0 + 10 else base0
  let base2 : ℚ := if p.hr ≥ 130 then base1 + 10 else base1
  let base3 : ℚ := if p.sbp < 90 then base2 + 15 else base2
  let base4 : ℚ := if p.age ≥ 65 then base3 + 5 else base3
  let wait_sec : Int := max 0 (now_sec - p.arrival)
  let minutes : ℚ := roundDouble (roundDouble (wait_sec : ℚ) / 60)
  roundDouble (base4 + min 30 (minutes * (1 / 2)))

/-! ## The store methods with the arithmetic of the score as a parameter -/

/-- One iteration of the loop of `treat_patient`, for a given evaluation `score` of
`calculate_priority`. -/
def treat_step_of (score : Patient → Int → ℚ) (now : Int) (b : Best) (kv : Int × Patient) :
    Best :=
  let pr := score kv.2 now
  if pr > b.best_pr ∨ (|pr - b.best_pr| < 1 / 1000000000 ∧ kv.2.arrival < b.best_arrival) then
    ⟨kv.1, pr, kv.2.arrival⟩
  else b

/-- The whole loop of `treat_patient`, for a given evaluation of the score. -/
def treat_scan_of (score : Patient → Int → ℚ) (now : Int) (m : PatientMap) : Best :=
  m.foldl (treat_step_of score now) Best.start

/-- The method `treat_patient`, for a given evaluation of the score. -/
def treat_patient_of (score : Patient → Int → ℚ) (s : TriageQueue) (now : Int)
    (out : Patient) : Bool × Patient × TriageQueue :=
  if s.patients.isEmpty then (false, out, s)
  else
    let b := treat_scan_of score now s.patients
    let r := mapIndex s.patients b.best_id
    (true, r.1, { patients := mapErase r.2 b.best_id, next_id := s.next_id })

/-- The comparator of `list_queue`, for a given evaluation of the score. -/
def list_queue_cmp_of (score : Patient → Int → ℚ) (now : Int) (a b : Patient) : Bool :=
  let pa := score a now
  let pb := score b now
  if pa ≠ pb then decide (pa > pb) else decide (a.arrival < b.arrival)

/-- The method `list_queue`, for a given evaluation of the score. -/
def list_queue_of (score : Patient → Int → ℚ)
    (sort : (Patient → Patient → Bool) → List Patient → List Patient)
    (s : TriageQueue) (now : Int) : List Patient :=
  sort (list_queue_cmp_of score now) (mapValues s.patients)

/-- The method `treat_patient` of the compiled program: scores are `double` values. -/
def treat_patient_f64 (s : TriageQueue) (now : Int) (out : Patient) :
    Bool × Patient × TriageQueue :=
  treat_patient_of calculate_priority_f64 s now out

/-- The method `list_queue` of the compiled program: scores are `double` values. -/
def list_queue_f64 (sort : (Patient → Patient → Bool) → List Patient → List Patient)
    (s : TriageQueue) (now : Int) : List Patient :=
  list_queue_of calculate_priority_f64 sort s now

/-- The loop invariant of `treat_patient` for a given evaluation of the score: the loop
variables describe an entry of `l`, no entry of `l` has a higher score, and no entry of `l`
with the same score arrived earlier. -/
def ScanInvOf (score : Patient → Int → ℚ) (now : Int) (l : PatientMap) (b : Best) : Prop :=
  (∃ kv ∈ l, kv.1 = b.best_id ∧ score kv.2 now = b.best_pr ∧ kv.2.arrival = b.best_arrival)
    ∧ ∀ q ∈ l, score q.2 now ≤ b.best_pr
        ∧ (score q.2 now = b.best_pr → b.best_arrival ≤ q.2.arrival)

/-- No two records of the list have different scores that are less than 1e-9 apart. -/
def ScoresSeparated (score : Patient → Int → ℚ) (now : Int) (l : List Patient) : Prop :=
  ∀ p ∈ l, ∀ q ∈ l, |score p now - score q now| < 1 / 1000000000 → score p now = score q now

/-- The store after inserting patient `a` (severity 2, spo2 92) at clock value 1700000000
and patient `b` (severity 2, sbp 85) at clock value 1700000600. -/
def ulpStore : TriageQueue :=
  (add_patient (add_patient TriageQueue.init 1700000000 "a" 40 2 80 120 92).2
    1700000600 "b" 40 2 80 85 97).2

/-- What the loop of the compiled `treat_patient` has established after the entries `l`:
the loop variables describe an entry of `l`, and no entry of `l` exceeds that entry in the
score of exact arithmetic. -/
def ScanInvMax (now : Int) (l : PatientMap) (b : Best) : Prop :=
  ∃ kv ∈ l, kv.1 = b.best_id ∧ calculate_priority_f64 kv.2 now = b.best_pr
    ∧ kv.2.arrival = b.best_arrival
    ∧ ∀ q ∈ l, calculate_priority q.2 now ≤ calculate_priority kv.2 now

/-- The store of the scenario of the specification at clock value 1000. -/
def scenarioStore : TriageQueue :=
  (add_patient (add_patient TriageQueue.init 1000 "A" 40 1 80 120 97).2
    1000 "B" 70 3 140 85 88).2

/-! ## Theorems about the priority function -/

theorem calculate_priority_eq_specScore (p : Patient) (now : Int) :
    calculate_priority p now = specScore p now := by
  have hw : (((max 0 (now - p.arrival) : Int) : ℚ) / 60) * (1 / 2)
      = ((max 0 (now - p.arrival) : Int) : ℚ) / 120 := by ring
  simp only [calculate_priority, specScore, severityBase, oxyAdj, hrAdj, bpAdj, ageAdj,
    waitBonus, hw]
  push_cast
  split_ifs <;> first | (exfalso; omega) | ring

theorem severityBase_neg_iff (severity : Int) : severityBase severity < 0 ↔ 8 ≤ severity := by
  unfold severityBase
  constructor
  · intro h
    have h1 : (115 : ℚ) < 15 * (severity : ℚ) := by linarith
    have h2 : ((115 : Int) : ℚ) < ((15 * severity : Int) : ℚ) := by push_cast; linarith
    have h3 : (115 : Int) < 15 * severity := by exact_mod_cast h2
    omega
  · intro h
    have h1 : ((8 : Int) : ℚ) ≤ (severity : ℚ) := by exact_mod_cast h
    push_cast at h1
    linarith

/-- C1: for every patient and clock value `calculate_priority` is the severity base
`100 - 15 * (severity - 1)` plus the oxygen, heart-rate, blood-pressure and age adjustments
plus the wait bonus `min(30, max(0, now - arrival) / 120)`; what the oxygen reading adds to
the score is 20, 10 or 0 (never 30); the base is not clamped: a patient without any
adjustment and without waiting time has a negative score exactly from severity 8 on. -/
theorem C1_calculate_priority_formula (p : Patient) (now : Int) :
    calculate_priority p now
        = 100 - 15 * ((p.severity : ℚ) - 1)
          + (if p.spo2 < 90 then 20 else if 90 ≤ p.spo2 ∧ p.spo2 ≤ 94 then 10 else 0)
          + (if p.hr ≥ 130 then 10 else 0)
          + (if p.sbp < 90 then 15 else 0)
          + (if p.age ≥ 65 then 5 else 0)
          + min 30 (((max 0 (now - p.arrival) : Int) : ℚ) / 120)
      ∧ (calculate_priority p now - calculate_priority { p with spo2 := 95 } now = 20
          ∨ calculate_priority p now - calculate_priority { p with spo2 := 95 } now = 10
          ∨ calculate_priority p now - calculate_priority { p with spo2 := 95 } now = 0)
      ∧ calculate_priority p now - calculate_priority { p with spo2 := 95 } now ≠ 30
      ∧ (calculate_priority ⟨p.id, p.name, 0, p.severity, 0, 90, 95, now⟩ now < 0
          ↔ 8 ≤ p.severity) := by
  have hd : calculate_priority p now - calculate_priority { p with spo2 := 95 } now
      = oxyAdj p.spo2 := by
    simp only [calculate_priority_eq_specScore, specScore]
    have : oxyAdj 95 = 0 := by simp [oxyAdj]
    rw [this]; ring
  refine ⟨?_, ?_, ?_, ?_⟩
  · rw [calculate_priority_eq_specScore]
    simp only [specScore, severityBase, oxyAdj, hrAdj, bpAdj, ageAdj, waitBonus]
  · rw [hd]; unfold oxyAdj; split_ifs <;> simp
  · rw [hd]; unfold oxyAdj; split_ifs <;> norm_num
  · rw [← severityBase_neg_iff, calculate_priority_eq_specScore]
    simp [specScore, oxyAdj, hrAdj, bpAdj, ageAdj, waitBonus]

/-! ## The score lies on the grid of multiples of 1/120 -/

theorem calculate_priority_eq_score120 (p : Patient) (now : Int) :
    calculate_priority p now = (score120 p now : ℚ) / 120 := by
  rw [calculate_priority_eq_specScore]
  have hw : waitBonus p.arrival now
      = ((min 3600 (max 0 (now - p.arrival)) : Int) : ℚ) / 120 := by
    unfold waitBonus
    rcases le_total (max 0 (now - p.arrival)) 3600 with h | h
    · have hq : ((max 0 (now - p.arrival) : Int) : ℚ) ≤ 3600 := by exact_mod_cast h
      rw [min_eq_right h, min_eq_right (by linarith)]
    · have hq : (3600 : ℚ) ≤ ((max 0 (now - p.arrival) : Int) : ℚ) := by exact_mod_cast h
      rw [min_eq_left h, min_eq_left (by linarith)]
      norm_num
  simp only [specScore, hw, severityBase, oxyAdj, hrAdj, bpAdj, ageAdj, score120]
  push_cast
  split_ifs <;> first | (exfalso; omega) | ring

theorem score_eq_of_near (p q : Patient) (now : Int)
    (h : |calculate_priority p now - calculate_priority q now| < 1 / 1000000000) :
    calculate_priority p now = calculate_priority q now := by
  rw [calculate_priority_eq_score120, calculate_priority_eq_score120] at h ⊢
  rw [abs_lt] at h
  obtain ⟨h1, h2⟩ := h
  have e : ((score120 p now : ℚ) / 120 - (score120 q now : ℚ) / 120)
      = (((score120 p now - score120 q now : Int)) : ℚ) / 120 := by push_cast; ring
  rw [e] at h1 h2
  have h3 : ((-1 : Int) : ℚ) < ((score120 p now - score120 q now : Int) : ℚ) := by
    have : (-1 : ℚ) < ((score120 p now - score120 q now : Int) : ℚ) := by linarith
    exact_mod_cast this
  have h4 : ((score120 p now - score120 q now : Int) : ℚ) < ((1 : Int) : ℚ) := by
    have : ((score120 p now - score120 q now : Int) : ℚ) < 1 := by linarith
    exact_mod_cast this
  have h5 : (-1 : Int) < score120 p now - score120 q now := by exact_mod_cast h3
  have h6 : score120 p now - score120 q now < (1 : Int) := by exact_mod_cast h4
  have h7 : score120 p now = score120 q now := by omega
  rw [h7]

theorem score_gt_start (p : Patient) (now : Int) (h : p.inRange) :
    Best.start.best_pr < calculate_priority p now := by
  rw [calculate_priority_eq_score120]
  have hs : p.severity ≤ 2147483647 := h.2.1.2
  have hz : (-1000000000000000000 : Int) * 120 < score120 p now := by
    unfold score120
    have hw : 0 ≤ min 3600 (max 0 (now - p.arrival)) := by omega
    split_ifs <;> omega
  have hq : ((-1000000000000000000 * 120 : Int) : ℚ) < (score120 p now : ℚ) := by
    exact_mod_cast hz
  push_cast at hq
  show (-1000000000000000000 : ℚ) < _
  rw [lt_div_iff₀ (by norm_num)]
  linarith

/-! ## The selection loop of `treat_patient` -/

theorem treat_step_first (now : Int) (kv : Int × Patient) (h : kv.2.inRange) :
    treat_step now Best.start kv = ⟨kv.1, calculate_priority kv.2 now, kv.2.arrival⟩ := by
  unfold treat_step
  simp only
  rw [if_pos (Or.inl (score_gt_start kv.2 now h))]

theorem scanInv_first (now : Int) (kv : Int × Patient) (h : kv.2.inRange) :
    ScanInv now [kv] (treat_step now Best.start kv) := by
  rw [treat_step_first now kv h]
  refine ⟨⟨kv, by simp, rfl, rfl, rfl⟩, ?_⟩
  intro q hq
  simp only [List.mem_singleton] at hq
  subst hq
  exact ⟨le_refl _, fun _ => le_refl _⟩

theorem scanInv_step (now : Int) (l : PatientMap) (b : Best) (kv : Int × Patient)
    (h : ScanInv now l b) : ScanInv now (l ++ [kv]) (treat_step now b kv) := by
  obtain ⟨⟨w, hw, hwid, hwpr, hwarr⟩, hall⟩ := h
  unfold treat_step
  simp only
  by_cases hgt : calculate_priority kv.2 now > b.best_pr
  · rw [if_pos (Or.inl hgt)]
    refine ⟨⟨kv, by simp, rfl, rfl, rfl⟩, ?_⟩
    intro q hq
    rcases List.mem_append.1 hq with hq | hq
    · have hle := (hall q hq).1
      refine ⟨le_of_lt (lt_of_le_of_lt hle hgt), fun he => ?_⟩
      exact absurd he (ne_of_lt (lt_of_le_of_lt hle hgt))
    · simp only [List.mem_singleton] at hq
      subst hq
      exact ⟨le_refl _, fun _ => le_refl _⟩
  · by_cases htie : |calculate_priority kv.2 now - b.best_pr| < 1 / 1000000000
        ∧ kv.2.arrival < b.best_arrival
    · rw [if_pos (Or.inr htie)]
      have heq : calculate_priority kv.2 now = b.best_pr := by
        rw [← hwpr]
        apply score_eq_of_near
        rw [hwpr]
        exact htie.1
      refine ⟨⟨kv, by simp, rfl, rfl, rfl⟩, ?_⟩
      intro q hq
      rcases List.mem_append.1 hq with hq | hq
      · obtain ⟨hle, harr⟩ := hall q hq
        refine ⟨by rw [heq]; exact hle, fun he => ?_⟩
        have := harr (by rw [he, heq])
        exact le_of_lt (lt_of_lt_of_le htie.2 this)
      · simp only [List.mem_singleton] at hq
        subst hq
        exact ⟨le_refl _, fun _ => le_refl _⟩
    · rw [if_neg (by rintro (h1 | h1); exact hgt h1; exact htie h1)]
      refine ⟨⟨w, List.mem_append_left _ hw, hwid, hwpr, hwarr⟩, ?_⟩
      intro q hq
      rcases List.mem_append.1 hq with hq | hq
      · exact hall q hq
      · simp only [List.mem_singleton] at hq
        subst hq
        have hle : calculate_priority q.2 now ≤ b.best_pr := not_lt.1 hgt
        refine ⟨hle, fun he => ?_⟩
        by_contra hlt
        apply htie
        refine ⟨?_, not_le.1 hlt⟩
        rw [he]
        norm_num

theorem scanInv_foldl (now : Int) (l2 : PatientMap) :
    ∀ (l1 : PatientMap) (b : Best), ScanInv now l1 b →
      ScanInv now (l1 ++ l2) (l2.foldl (treat_step now) b) := by
  induction l2 with
  | nil => intro l1 b h; simpa using h
  | cons kv rest ih =>
    intro l1 b h
    have h1 := ih (l1 ++ [kv]) (treat_step now b kv) (scanInv_step now l1 b kv h)
    simpa [List.append_assoc] using h1

theorem scanInv_treat_scan (now : Int) (m : PatientMap) (hne : m ≠ [])
    (hr : ∀ p ∈ mapValues m, p.inRange) : ScanInv now m (treat_scan now m) := by
  cases m with
  | nil => exact absurd rfl hne
  | cons kv rest =>
    have h0 : kv.2.inRange := hr kv.2 (by simp [mapValues])
    have := scanInv_foldl now rest [kv] (treat_step now Best.start kv) (scanInv_first now kv h0)
    simpa [treat_scan] using this

/-! ## The map operations -/

theorem mapFind_eq_some_of_mem (m : PatientMap) (k : Int) (v : Patient)
    (hnd : (mapKeys m).Nodup) (hmem : (k, v) ∈ m) : mapFind m k = some v := by
  induction m with
  | nil => simp at hmem
  | cons kv rest ih =>
    simp only [mapKeys, List.map_cons, List.nodup_cons] at hnd
    rcases List.mem_cons.1 hmem with h | h
    · subst h; simp [mapFind]
    · have hne : kv.1 ≠ k := by
        intro he
        apply hnd.1
        rw [he]
        exact List.mem_map.2 ⟨(k, v), h, rfl⟩
      simp only [mapFind, if_neg hne]
      exact ih hnd.2 h

theorem mapFind_mem (m : PatientMap) (k : Int) (v : Patient) (h : mapFind m k = some v) :
    (k, v) ∈ m := by
  induction m with
  | nil => simp [mapFind] at h
  | cons kv rest ih =>
    unfold mapFind at h
    split_ifs at h with he
    · simp only [Option.some.injEq] at h
      subst h; subst he
      exact List.mem_cons_self _ _
    · exact List.mem_cons_of_mem _ (ih h)

theorem mapFind_eq_none_iff (m : PatientMap) (k : Int) :
    mapFind m k = none ↔ k ∉ mapKeys m := by
  induction m with
  | nil => simp [mapFind, mapKeys]
  | cons kv rest ih =>
    unfold mapFind
    by_cases he : kv.1 = k
    · simp [he, mapKeys]
    · rw [if_neg he, ih]
      simp only [mapKeys, List.map_cons, List.mem_cons, not_or]
      constructor
      · intro h; exact ⟨fun h2 => he h2.symm, h⟩
      · intro h; exact h.2

theorem mapErase_perm (m : PatientMap) (k : Int) (v : Patient)
    (hnd : (mapKeys m).Nodup) (hmem : (k, v) ∈ m) : m.Perm ((k, v) :: mapErase m k) := by
  induction m with
  | nil => simp at hmem
  | cons kv rest ih =>
    simp only [mapKeys, List.map_cons, List.nodup_cons] at hnd
    by_cases he : kv.1 = k
    · have hkv : kv = (k, v) := by
        rcases List.mem_cons.1 hmem with h | h
        · exact h.symm
        · exfalso; apply hnd.1; rw [he]; exact List.mem_map.2 ⟨(k, v), h, rfl⟩
      have hrest : mapErase rest k = rest := by
        unfold mapErase
        apply List.filter_eq_self.2
        intro a ha
        simp only [ne_eq, decide_not, Bool.not_eq_eq_eq_not, Bool.not_true, decide_eq_false_iff_not]
        intro hak
        apply hnd.1
        rw [he, ← hak]
        exact List.mem_map.2 ⟨a, ha, rfl⟩
      have : mapErase (kv :: rest) k = rest := by
        rw [← hrest]
        simp [mapErase, he]
      rw [this, hkv]
    · have hmem2 : (k, v) ∈ rest := by
        rcases List.mem_cons.1 hmem with h | h
        · exfalso; apply he; rw [← h]
        · exact h
      have : mapErase (kv :: rest) k = kv :: mapErase rest k := by
        simp [mapErase, he]
      rw [this]
      exact ((ih hnd.2 hmem2).cons kv).trans (List.Perm.swap _ _ _)

/-! ## `treat_patient` -/

theorem treat_patient_nonempty (s : TriageQueue) (now : Int) (out : Patient)
    (hne : s.patients ≠ []) (hk : KeysNodup s) (hr : RecordsInRange s) :
    ∃ kv ∈ s.patients,
      kv.1 = (treat_scan now s.patients).best_id
      ∧ mapIndex s.patients kv.1 = (kv.2, s.patients)
      ∧ treat_patient s now out = (true, kv.2, ⟨mapErase s.patients kv.1, s.next_id⟩)
      ∧ ∀ q ∈ s.patients, calculate_priority q.2 now ≤ calculate_priority kv.2 now
          ∧ (calculate_priority q.2 now = calculate_priority kv.2 now
              → kv.2.arrival ≤ q.2.arrival) := by
  obtain ⟨⟨kv, hmem, hid, hpr, harr⟩, hall⟩ := scanInv_treat_scan now s.patients hne hr
  have hfind : mapFind s.patients kv.1 = some kv.2 :=
    mapFind_eq_some_of_mem s.patients kv.1 kv.2 hk hmem
  have hidx : mapIndex s.patients kv.1 = (kv.2, s.patients) := by
    simp only [mapIndex, hfind]
  refine ⟨kv, hmem, hid, hidx, ?_, ?_⟩
  · have he : s.patients.isEmpty = false := by
      cases hs : s.patients with
      | nil => exact absurd hs hne
      | cons a l => rfl
    unfold treat_patient
    rw [he]
    simp only [Bool.false_eq_true, if_false, ← hid, hidx]
  · intro q hq
    obtain ⟨h1, h2⟩ := hall q hq
    rw [hpr, harr]
    exact ⟨h1, h2⟩

/-- C9: on a store with at least one record `treat_patient` returns true; the id it
selected is a key of the map, so the indexing expression finds a stored record and creates
none; the record written to `out` is that stored record; afterwards the map holds exactly
the other records, unchanged (one fewer), and the id counter is unchanged. -/
theorem C9_treat_patient_removes_one (s : TriageQueue) (now : Int) (out : Patient)
    (hne : s.patients ≠ []) (hk : KeysNodup s) (hr : RecordsInRange s) :
    (treat_patient s now out).1 = true
      ∧ (treat_scan now s.patients).best_id ∈ mapKeys s.patients
      ∧ ((treat_scan now s.patients).best_id, (treat_patient s now out).2.1) ∈ s.patients
      ∧ mapIndex s.patients (treat_scan now s.patients).best_id
          = ((treat_patient s now out).2.1, s.patients)
      ∧ s.patients.Perm
          (((treat_scan now s.patients).best_id, (treat_patient s now out).2.1)
            :: (treat_patient s now out).2.2.patients)
      ∧ (treat_patient s now out).2.2.patients.length + 1 = s.patients.length
      ∧ (treat_scan now s.patients).best_id ∉ mapKeys (treat_patient s now out).2.2.patients
      ∧ (treat_patient s now out).2.2.next_id = s.next_id := by
  obtain ⟨kv, hmem, hid, hidx, hres, -⟩ := treat_patient_nonempty s now out hne hk hr
  have hperm := mapErase_perm s.patients kv.1 kv.2 hk hmem
  rw [hres, ← hid]
  refine ⟨rfl, List.mem_map.2 ⟨kv, hmem, rfl⟩, hmem, hidx, hperm, ?_, ?_, rfl⟩
  · have := hperm.length_eq
    simp only [List.length_cons] at this
    exact this.symm
  · have hnd : (mapKeys ((kv.1, kv.2) :: mapErase s.patients kv.1)).Nodup := by
      unfold mapKeys
      exact ((hperm.map Prod.fst).nodup_iff).1 hk
    simp only [mapKeys, List.map_cons, List.nodup_cons] at hnd
    exact hnd.1

/-- C10: on an empty store `treat_patient` returns false, leaves the caller's record as it
was and leaves the state (empty map, id counter) as it was. -/
theorem C10_treat_patient_empty (s : TriageQueue) (now : Int) (out : Patient)
    (hempty : s.patients = []) :
    treat_patient s now out = (false, out, s)
      ∧ (treat_patient s now out).2.2.patients = []
      ∧ (treat_patient s now out).2.2.next_id = s.next_id := by
  have h : treat_patient s now out = (false, out, s) := by
    unfold treat_patient
    rw [hempty]
    rfl
  rw [h]
  exact ⟨rfl, hempty, rfl⟩

/-! ## The comparator of `list_queue` and `std::sort` -/

theorem list_queue_cmp_iff (now : Int) (a b : Patient) :
    list_queue_cmp now a b = true ↔
      calculate_priority a now > calculate_priority b now
        ∨ (calculate_priority a now = calculate_priority b now ∧ a.arrival < b.arrival) := by
  unfold list_queue_cmp
  simp only
  by_cases h : calculate_priority a now = calculate_priority b now
  · simp [h]
  · simp only [ne_eq, h, not_false_eq_true, if_true, decide_eq_true_eq, false_and, or_false]

theorem list_queue_cmp_false_iff (now : Int) (a b : Patient) :
    list_queue_cmp now b a = false ↔
      calculate_priority a now > calculate_priority b now
        ∨ (calculate_priority a now = calculate_priority b now ∧ a.arrival ≤ b.arrival) := by
  rw [← Bool.not_eq_true, list_queue_cmp_iff]
  constructor
  · intro h
    rcases lt_trichotomy (calculate_priority a now) (calculate_priority b now) with h1 | h1 | h1
    · exact absurd (Or.inl h1) h
    · refine Or.inr ⟨h1, ?_⟩
      by_contra h2
      exact h (Or.inr ⟨h1.symm, not_le.1 h2⟩)
    · exact Or.inl h1
  · rintro (h | ⟨h1, h2⟩) (h3 | ⟨h3, h4⟩)
    · exact lt_asymm h h3
    · rw [h3] at h; exact lt_irrefl _ h
    · rw [h1] at h3; exact lt_irrefl _ h3
    · omega

theorem list_queue_cmp_strictWeak (now : Int) : StrictWeak (list_queue_cmp now) := by
  refine ⟨?_, ?_, ?_⟩
  · intro a
    rw [list_queue_cmp_false_iff]
    exact Or.inr ⟨rfl, le_refl _⟩
  · intro a b c hab hbc
    rw [list_queue_cmp_iff] at *
    rcases hab with h1 | ⟨h1, h2⟩ <;> rcases hbc with h3 | ⟨h3, h4⟩
    · exact Or.inl (lt_trans h3 h1)
    · exact Or.inl (by rw [← h3]; exact h1)
    · exact Or.inl (by rw [h1]; exact h3)
    · exact Or.inr ⟨h1.trans h3, lt_trans h2 h4⟩
  · intro a b c hab hba hbc hcb
    rw [list_queue_cmp_false_iff] at hab hba hbc hcb
    have e1 : calculate_priority a now = calculate_priority b now := by
      rcases hab with h | h <;> rcases hba with h2 | h2
      · exact absurd h (lt_asymm h2)
      · exact h2.1
      · exact h.1.symm
      · exact h2.1
    have e2 : calculate_priority b now = calculate_priority c now := by
      rcases hbc with h | h <;> rcases hcb with h2 | h2
      · exact absurd h (lt_asymm h2)
      · exact h2.1
      · exact h.1.symm
      · exact h2.1
    have a1 : a.arrival = b.arrival := by
      rcases hab with h | h <;> rcases hba with h2 | h2
      · exact absurd h (lt_asymm h2)
      · rw [h2.1] at h; exact absurd h (lt_irrefl _)
      · rw [h.1] at h2; exact absurd h2 (lt_irrefl _)
      · exact le_antisymm h2.2 h.2
    have a2 : b.arrival = c.arrival := by
      rcases hbc with h | h <;> rcases hcb with h2 | h2
      · exact absurd h (lt_asymm h2)
      · rw [h2.1] at h; exact absurd h (lt_irrefl _)
      · rw [h.1] at h2; exact absurd h2 (lt_irrefl _)
      · exact le_antisymm h2.2 h.2
    exact ⟨(list_queue_cmp_false_iff now c a).2 (Or.inr ⟨(e1.trans e2).symm, by omega⟩),
      (list_queue_cmp_false_iff now a c).2 (Or.inr ⟨e1.trans e2, by omega⟩)⟩

theorem StrictWeak.asymm {cmp : Patient → Patient → Bool} (h : StrictWeak cmp) (a b : Patient)
    (hab : cmp a b = true) : cmp b a = false := by
  by_contra hba
  have h1 := h.trans a b a hab (by simpa using hba)
  rw [h.irrefl a] at h1
  exact Bool.false_ne_true h1

theorem StrictWeak.notLess_total {cmp : Patient → Patient → Bool} (h : StrictWeak cmp)
    (a b : Patient) : cmp b a = false ∨ cmp a b = false := by
  by_cases hab : cmp a b = true
  · exact Or.inl (h.asymm a b hab)
  · exact Or.inr (by simpa using hab)

theorem StrictWeak.notLess_trans {cmp : Patient → Patient → Bool} (h : StrictWeak cmp)
    (a b c : Patient) (hba : cmp b a = false) (hcb : cmp c b = false) : cmp c a = false := by
  by_contra hca
  have hca1 : cmp c a = true := by simpa using hca
  by_cases hab : cmp a b = true
  · have := h.trans c a b hca1 hab
    rw [hcb] at this
    exact Bool.false_ne_true this
  · by_cases hbc : cmp b c = true
    · have := h.trans b c a hbc hca1
      rw [hba] at this
      exact Bool.false_ne_true this
    · have := (h.incomp_trans a b c (by simpa using hab) hba (by simpa using hbc) hcb).2
      rw [this] at hca1
      exact Bool.false_ne_true hca1

theorem stableSort_stdSort : StdSort stableSort := by
  refine ⟨?_, ?_⟩
  · intro cmp l _
    exact List.perm_insertionSort _ l
  · intro cmp l h
    have ht : IsTotal Patient (fun a b => cmp b a = false) := ⟨fun a b => h.notLess_total a b⟩
    have htr : IsTrans Patient (fun a b => cmp b a = false) :=
      ⟨fun a b c hab hbc => h.notLess_trans a b c hab hbc⟩
    exact List.sorted_insertionSort (fun a b => cmp b a = false) l

/-! ## `list_queue` -/

/-- C3: for every store and clock value, with any `std::sort` that meets the contract of
the standard, `list_queue` returns a permutation of the stored records (same length, every
record as often as it is stored, and no id twice when the map has no key twice and every
record is stored under its id) that is sorted: in every adjacent pair, and in fact in every
pair, the earlier element has the higher score, or the same score and an arrival that is
not later. -/
theorem C3_list_queue_sorted_permutation
    (sort : (Patient → Patient → Bool) → List Patient → List Patient) (hsort : StdSort sort)
    (s : TriageQueue) (now : Int) :
    (list_queue sort s now).Perm (mapValues s.patients)
      ∧ (list_queue sort s now).length = s.patients.length
      ∧ (∀ p, (list_queue sort s now).count p = (mapValues s.patients).count p)
      ∧ List.Chain' (fun a b =>
            calculate_priority a now > calculate_priority b now
              ∨ (calculate_priority a now = calculate_priority b now ∧ a.arrival ≤ b.arrival))
          (list_queue sort s now)
      ∧ List.Pairwise (fun a b =>
            calculate_priority a now > calculate_priority b now
              ∨ (calculate_priority a now = calculate_priority b now ∧ a.arrival ≤ b.arrival))
          (list_queue sort s now)
      ∧ (KeysNodup s → KeyIsId s → ((list_queue sort s now).map Patient.id).Nodup) := by
  have hperm : (list_queue sort s now).Perm (mapValues s.patients) :=
    hsort.perm (list_queue_cmp now) (mapValues s.patients) (list_queue_cmp_strictWeak now)
  have hpw : List.Pairwise (fun a b =>
      calculate_priority a now > calculate_priority b now
        ∨ (calculate_priority a now = calculate_priority b now ∧ a.arrival ≤ b.arrival))
      (list_queue sort s now) := by
    have := hsort.ordered (list_queue_cmp now) (mapValues s.patients)
      (list_queue_cmp_strictWeak now)
    exact this.imp (fun {a b} h => (list_queue_cmp_false_iff now a b).1 h)
  refine ⟨hperm, ?_, fun p => hperm.count_eq p, hpw.chain', hpw, ?_⟩
  · rw [hperm.length_eq]
    simp [mapValues]
  · intro hk hid
    rw [((hperm.map Patient.id).nodup_iff)]
    have e : (mapValues s.patients).map Patient.id = mapKeys s.patients := by
      unfold mapValues mapKeys
      rw [List.map_map]
      apply List.map_congr_left
      intro kv hkv
      exact hid kv hkv
    rw [e]
    exact hk

/-! ## The id counter -/

theorem wrapInt32_of_inRange (x : Int) (h : inInt32 x) : wrapInt32 x = x := by
  unfold inInt32 at h
  unfold wrapInt32
  omega

theorem wrapInt32_inRange (x : Int) : inInt32 (wrapInt32 x) := by
  unfold inInt32 wrapInt32
  omega

theorem update_patient_next_id (s : TriageQueue) (id age severity hr sbp spo2 : Int) :
    (update_patient s id age severity hr sbp spo2).2.next_id = s.next_id := by
  unfold update_patient
  cases mapFind s.patients id <;> rfl

theorem treat_patient_next_id (s : TriageQueue) (now : Int) (out : Patient) :
    (treat_patient s now out).2.2.next_id = s.next_id := by
  unfold treat_patient
  split_ifs <;> rfl

theorem addedIds_run (sort : (Patient → Patient → Bool) → List Patient → List Patient) :
    ∀ (calls : List (Int × Op)) (s : TriageQueue),
      (∀ c ∈ calls, c.2 ≠ Op.clear) → inInt32 s.next_id →
      s.next_id + (numAdds calls : Int) ≤ 2147483648 →
      addedIds (run sort s calls).1
        = (List.range (numAdds calls)).map (fun i : Nat => s.next_id + (i : Int)) := by
  intro calls
  induction calls with
  | nil => intro s _ _ _; simp [run, addedIds, numAdds]
  | cons c rest ih =>
    intro s hnc hin hle
    have hnc2 : ∀ c ∈ rest, c.2 ≠ Op.clear := fun x hx => hnc x (List.mem_cons_of_mem _ hx)
    obtain ⟨now, op⟩ := c
    cases op with
    | add name age severity hr sbp spo2 =>
      have hn : numAdds ((now, Op.add name age severity hr sbp spo2) :: rest)
          = numAdds rest + 1 := by simp [numAdds, Op.isAdd]
      rw [hn] at hle ⊢
      push_cast at hle
      have hstep : run sort s ((now, Op.add name age severity hr sbp spo2) :: rest)
          = (Ret.newId s.next_id
              :: (run sort (add_patient s now name age severity hr sbp spo2).2 rest).1,
             (run sort (add_patient s now name age severity hr sbp spo2).2 rest).2) := rfl
      rw [hstep]
      simp only [addedIds]
      have hnext : (add_patient s now name age severity hr sbp spo2).2.next_id
          = wrapInt32 (s.next_id + 1) := rfl
      have hin2 : inInt32 (add_patient s now name age severity hr sbp spo2).2.next_id := by
        rw [hnext]; exact wrapInt32_inRange _
      rw [List.range_succ_eq_map, List.map_cons, List.map_map]
      simp only [Nat.cast_zero, add_zero, List.cons.injEq, true_and]
      by_cases hk : numAdds rest = 0
      · have := ih (add_patient s now name age severity hr sbp spo2).2 hnc2 hin2
          (by rw [hk]; have := hin2.2; push_cast; omega)
        rw [this, hk]
        simp
      · have hlt : s.next_id + 1 ≤ 2147483647 := by
          have : (1 : Int) ≤ (numAdds rest : Int) := by
            have := Nat.pos_of_ne_zero hk
            exact_mod_cast this
          omega
        have hw : wrapInt32 (s.next_id + 1) = s.next_id + 1 :=
          wrapInt32_of_inRange _ ⟨by have := hin.1; omega, hlt⟩
        have := ih (add_patient s now name age severity hr sbp spo2).2 hnc2 hin2
          (by rw [hnext, hw]; omega)
        rw [this, hnext, hw]
        apply List.map_congr_left
        intro i _
        simp only [Function.comp, Nat.succ_eq_add_one, Nat.cast_add, Nat.cast_one]
        ring
    | update id age severity hr sbp spo2 =>
      have hn : numAdds ((now, Op.update id age severity hr sbp spo2) :: rest)
          = numAdds rest := by simp [numAdds, Op.isAdd]
      rw [hn] at hle ⊢
      have hstep : run sort s ((now, Op.update id age severity hr sbp spo2) :: rest)
          = (Ret.updated (update_patient s id age severity hr sbp spo2).1
              :: (run sort (update_patient s id age severity hr sbp spo2).2 rest).1,
             (run sort (update_patient s id age severity hr sbp spo2).2 rest).2) := rfl
      rw [hstep]
      simp only [addedIds]
      have hnext := update_patient_next_id s id age severity hr sbp spo2
      rw [ih _ hnc2 (by rw [hnext]; exact hin) (by rw [hnext]; exact hle), hnext]
    | treat =>
      have hn : numAdds ((now, Op.treat) :: rest) = numAdds rest := by
        simp [numAdds, Op.isAdd]
      rw [hn] at hle ⊢
      have hstep : run sort s ((now, Op.treat) :: rest)
          = (Ret.treated (treat_patient s now default).1 (treat_patient s now default).2.1
              :: (run sort (treat_patient s now default).2.2 rest).1,
             (run sort (treat_patient s now default).2.2 rest).2) := rfl
      rw [hstep]
      simp only [addedIds]
      have hnext := treat_patient_next_id s now default
      rw [ih _ hnc2 (by rw [hnext]; exact hin) (by rw [hnext]; exact hle), hnext]
    | list =>
      have hn : numAdds ((now, Op.list) :: rest) = numAdds rest := by
        simp [numAdds, Op.isAdd]
      rw [hn] at hle ⊢
      have hstep : run sort s ((now, Op.list) :: rest)
          = (Ret.listing (list_queue sort s now) :: (run sort s rest).1,
             (run sort s rest).2) := rfl
      rw [hstep]
      simp only [addedIds]
      exact ih s hnc2 hin hle
    | clear =>
      exact absurd rfl (hnc (now, Op.clear) (List.mem_cons_self _ _))

/-- C5: starting from the initial store, in every sequence of calls without `clear_all`
and with fewer than 2^31 insertions, the ids returned by the successive `add_patient`
calls are 1, 2, 3, ... in this order, hence strictly increasing and never repeated,
whatever `treat_patient` removed in between. -/
theorem C5_ids_strictly_increasing
    (sort : (Patient → Patient → Bool) → List Patient → List Patient)
    (calls : List (Int × Op)) (hnc : ∀ c ∈ calls, c.2 ≠ Op.clear)
    (hlt : numAdds calls < 2147483648) :
    addedIds (run sort TriageQueue.init calls).1
        = (List.range' 1 (numAdds calls)).map (fun i : Nat => (i : Int))
      ∧ (addedIds (run sort TriageQueue.init calls).1).length = numAdds calls
      ∧ (addedIds (run sort TriageQueue.init calls).1).Pairwise (fun a b => a < b)
      ∧ (addedIds (run sort TriageQueue.init calls).1).Nodup := by
  have h := addedIds_run sort calls TriageQueue.init hnc (by decide)
    (by
      have : ((numAdds calls : Nat) : Int) < 2147483648 := by exact_mod_cast hlt
      show (1 : Int) + _ ≤ _
      omega)
  have e : addedIds (run sort TriageQueue.init calls).1
      = (List.range' 1 (numAdds calls)).map (fun i : Nat => (i : Int)) := by
    rw [h, List.range'_eq_map_range, List.map_map]
    apply List.map_congr_left
    intro i _
    simp [TriageQueue.init]
  have hpw : (addedIds (run sort TriageQueue.init calls).1).Pairwise (fun a b => a < b) := by
    rw [e, List.pairwise_map]
    exact (List.pairwise_lt_range' 1 (numAdds calls)).imp (fun {a b} hab => by exact_mod_cast hab)
  refine ⟨e, by rw [e]; simp, hpw, ?_⟩
  exact hpw.imp (fun {a b} hab => ne_of_lt hab)

/-- C5, witness: insert, treat, insert, list, update, insert. -/
theorem C5_ids_strictly_increasing_witness :
    (∀ c ∈ [((10 : Int), Op.add "a" 30 2 80 120 97), (11, Op.treat),
              (12, Op.add "b" 70 3 140 85 88), (13, Op.list), (14, Op.update 2 71 3 140 85 88),
              (15, Op.add "c" 50 1 90 110 93)], c.2 ≠ Op.clear)
      ∧ addedIds (run stableSort TriageQueue.init
          [((10 : Int), Op.add "a" 30 2 80 120 97), (11, Op.treat),
            (12, Op.add "b" 70 3 140 85 88), (13, Op.list), (14, Op.update 2 71 3 140 85 88),
            (15, Op.add "c" 50 1 90 110 93)]).1 = [1, 2, 3] :=
  ⟨by decide,
    (C5_ids_strictly_increasing stableSort
      [((10 : Int), Op.add "a" 30 2 80 120 97), (11, Op.treat),
        (12, Op.add "b" 70 3 140 85 88), (13, Op.list), (14, Op.update 2 71 3 140 85 88),
        (15, Op.add "c" 50 1 90 110 93)] (by decide) (by decide)).1⟩

/-! ## `clear_all` -/

/-- C6: after `clear_all`, from any state, the store holds no record (`list_queue` returns
the empty sequence and `treat_patient` returns false) and the next `add_patient` returns
id 1; in particular insert, `clear_all`, insert gives the second patient id 1. -/
theorem C6_clear_all_resets
    (sort : (Patient → Patient → Bool) → List Patient → List Patient) (hsort : StdSort sort)
    (s : TriageQueue) (now : Int) (out : Patient) (name : String)
    (age severity hr sbp spo2 : Int) :
    (clear_all s).patients = []
      ∧ (clear_all s).next_id = 1
      ∧ list_queue sort (clear_all s) now = []
      ∧ treat_patient (clear_all s) now out = (false, out, clear_all s)
      ∧ (add_patient (clear_all s) now name age severity hr sbp spo2).1 = 1
      ∧ (∀ (now0 now1 : Int) (name0 : String) (age0 severity0 hr0 sbp0 spo20 : Int),
          addedIds (run sort TriageQueue.init
            [(now0, Op.add name0 age0 severity0 hr0 sbp0 spo20), (now1, Op.clear),
              (now, Op.add name age severity hr sbp spo2)]).1 = [1, 1]) := by
  refine ⟨rfl, rfl, ?_, rfl, rfl, fun _ _ _ _ _ _ _ _ => rfl⟩
  have := hsort.perm (list_queue_cmp now) [] (list_queue_cmp_strictWeak now)
  exact List.Perm.eq_nil this

/-- C6, witness: a store with two records, sorted with the insertion sort. -/
theorem C6_clear_all_resets_witness :
    StdSort stableSort
      ∧ list_queue stableSort (clear_all tiedStore) 1000 = []
      ∧ (add_patient (clear_all tiedStore) 1000 "D" 50 2 90 100 95).1 = 1 :=
  ⟨stableSort_stdSort,
    (C6_clear_all_resets stableSort stableSort_stdSort tiedStore 1000 default "D"
      50 2 90 100 95).2.2.1,
    (C6_clear_all_resets stableSort stableSort_stdSort tiedStore 1000 default "D"
      50 2 90 100 95).2.2.2.2.1⟩

/-! ## `update_patient` -/

theorem mapKeys_mapReplace (m : PatientMap) (k : Int) (v : Patient) :
    mapKeys (mapReplace m k v) = mapKeys m := by
  induction m with
  | nil => rfl
  | cons kv rest ih =>
    unfold mapReplace
    by_cases he : kv.1 = k
    · simp [he, mapKeys]
    · rw [if_neg he]
      simp only [mapKeys, List.map_cons, List.cons.injEq, true_and]
      exact ih

theorem mapFind_mapReplace_self (m : PatientMap) (k : Int) (v : Patient)
    (h : k ∈ mapKeys m) : mapFind (mapReplace m k v) k = some v := by
  induction m with
  | nil => simp [mapKeys] at h
  | cons kv rest ih =>
    unfold mapReplace
    by_cases he : kv.1 = k
    · simp [he, mapFind]
    · rw [if_neg he]
      simp only [mapFind, if_neg he]
      apply ih
      simp only [mapKeys, List.map_cons, List.mem_cons] at h
      rcases h with h | h
      · exact absurd h.symm he
      · exact h

theorem mapFind_mapReplace_other (m : PatientMap) (k k2 : Int) (v : Patient) (hne : k2 ≠ k) :
    mapFind (mapReplace m k v) k2 = mapFind m k2 := by
  induction m with
  | nil => rfl
  | cons kv rest ih =>
    unfold mapReplace
    by_cases he : kv.1 = k
    · have h2 : ¬ kv.1 = k2 := fun h => hne (h.symm.trans he)
      simp [he, mapFind, hne.symm, h2]
    · rw [if_neg he]
      simp only [mapFind]
      rw [ih]

/-- C7: `update_patient` on an id that is not a key of the map returns false and leaves
the whole state, records and id counter, exactly as it was. -/
theorem C7_update_absent_id (s : TriageQueue) (id age severity hr sbp spo2 : Int)
    (habs : id ∉ mapKeys s.patients) :
    update_patient s id age severity hr sbp spo2 = (false, s)
      ∧ (update_patient s id age severity hr sbp spo2).2.patients = s.patients
      ∧ (update_patient s id age severity hr sbp spo2).2.next_id = s.next_id := by
  have h : update_patient s id age severity hr sbp spo2 = (false, s) := by
    unfold update_patient
    rw [(mapFind_eq_none_iff s.patients id).2 habs]
  rw [h]
  exact ⟨rfl, rfl, rfl⟩

/-- C7, witness: id 7 in a store whose keys are 2 and 1. -/
theorem C7_update_absent_id_witness :
    (7 : Int) ∉ mapKeys tiedStore.patients
      ∧ update_patient tiedStore 7 41 2 81 121 96 = (false, tiedStore) :=
  ⟨by decide, (C7_update_absent_id tiedStore 7 41 2 81 121 96 (by decide)).1⟩

/-- C8: `update_patient` on an id that is a key of the map returns true; afterwards the
record under that id carries the five given clinical values with its id, name and arrival
as before; the record under every other key, the keys of the map (in the same iteration
order) and the id counter are unchanged. -/
theorem C8_update_present_id (s : TriageQueue) (id age severity hr sbp spo2 : Int)
    (hmem : id ∈ mapKeys s.patients) (hk : KeysNodup s) (hid : KeyIsId s) :
    ∃ old, (id, old) ∈ s.patients
      ∧ mapFind s.patients id = some old
      ∧ (update_patient s id age severity hr sbp spo2).1 = true
      ∧ mapFind (update_patient s id age severity hr sbp spo2).2.patients id
          = some ⟨old.id, old.name, age, severity, hr, sbp, spo2, old.arrival⟩
      ∧ (∀ k, k ≠ id →
          mapFind (update_patient s id age severity hr sbp spo2).2.patients k
            = mapFind s.patients k)
      ∧ (∀ kv ∈ s.patients, kv.1 ≠ id →
          kv ∈ (update_patient s id age severity hr sbp spo2).2.patients)
      ∧ mapKeys (update_patient s id age severity hr sbp spo2).2.patients = mapKeys s.patients
      ∧ (update_patient s id age severity hr sbp spo2).2.patients.length = s.patients.length
      ∧ (update_patient s id age severity hr sbp spo2).2.next_id = s.next_id := by
  obtain ⟨kv, hkv, hkey⟩ := List.mem_map.1 hmem
  have hpair : (id, kv.2) ∈ s.patients := by rw [← hkey]; exact hkv
  have hfind : mapFind s.patients id = some kv.2 :=
    mapFind_eq_some_of_mem s.patients id kv.2 hk hpair
  have hold : kv.2.id = id := by rw [← hkey]; exact hid kv hkv
  have hupd : update_patient s id age severity hr sbp spo2
      = (true, ⟨mapReplace s.patients id
          ⟨id, kv.2.name, age, severity, hr, sbp, spo2, kv.2.arrival⟩, s.next_id⟩) := by
    unfold update_patient
    rw [hfind]
  rw [hupd]
  refine ⟨kv.2, hpair, hfind, rfl, ?_, ?_, ?_, mapKeys_mapReplace _ _ _, ?_, rfl⟩
  · rw [hold]
    exact mapFind_mapReplace_self _ _ _ hmem
  · intro k hne
    exact mapFind_mapReplace_other _ _ _ _ hne
  · intro q hq hne
    apply mapFind_mem
    rw [mapFind_mapReplace_other _ _ _ _ hne]
    exact mapFind_eq_some_of_mem s.patients q.1 q.2 hk hq
  · have := congrArg List.length (mapKeys_mapReplace s.patients id
      ⟨id, kv.2.name, age, severity, hr, sbp, spo2, kv.2.arrival⟩)
    simpa [mapKeys] using this

/-- C8, witness: id 1 in a store whose keys are 2 and 1. -/
theorem C8_update_present_id_witness :
    (1 : Int) ∈ mapKeys tiedStore.patients ∧ KeysNodup tiedStore ∧ KeyIsId tiedStore
      ∧ ∃ old, (1, old) ∈ tiedStore.patients
        ∧ mapFind tiedStore.patients 1 = some old
        ∧ (update_patient tiedStore 1 41 2 81 121 96).1 = true
        ∧ mapFind (update_patient tiedStore 1 41 2 81 121 96).2.patients 1
            = some ⟨old.id, old.name, 41, 2, 81, 121, 96, old.arrival⟩
        ∧ (∀ k, k ≠ 1 →
            mapFind (update_patient tiedStore 1 41 2 81 121 96).2.patients k
              = mapFind tiedStore.patients k)
        ∧ (∀ kv ∈ tiedStore.patients, kv.1 ≠ 1 →
            kv ∈ (update_patient tiedStore 1 41 2 81 121 96).2.patients)
        ∧ mapKeys (update_patient tiedStore 1 41 2 81 121 96).2.patients
            = mapKeys tiedStore.patients
        ∧ (update_patient tiedStore 1 41 2 81 121 96).2.patients.length
            = tiedStore.patients.length
        ∧ (update_patient tiedStore 1 41 2 81 121 96).2.next_id = tiedStore.next_id :=
  ⟨by decide, by decide, by decide,
    C8_update_present_id tiedStore 1 41 2 81 121 96 (by decide) (by decide) (by decide)⟩

/-! ## Instances on a concrete store -/

/-- C3, witness: the two-record store, sorted with the insertion sort. -/
theorem C3_list_queue_sorted_permutation_witness :
    StdSort stableSort
      ∧ (list_queue stableSort tiedStore 1000).Perm (mapValues tiedStore.patients)
      ∧ (list_queue stableSort tiedStore 1000).length = tiedStore.patients.length
      ∧ KeysNodup tiedStore ∧ KeyIsId tiedStore
      ∧ ((list_queue stableSort tiedStore 1000).map Patient.id).Nodup :=
  ⟨stableSort_stdSort,
    (C3_list_queue_sorted_permutation stableSort stableSort_stdSort tiedStore 1000).1,
    (C3_list_queue_sorted_permutation stableSort stableSort_stdSort tiedStore 1000).2.1,
    by decide, by decide,
    (C3_list_queue_sorted_permutation stableSort stableSort_stdSort tiedStore 1000).2.2.2.2.2
      (by decide) (by decide)⟩

/-- C9, witness: the two-record store. -/
theorem C9_treat_patient_removes_one_witness :
    tiedStore.patients ≠ [] ∧ KeysNodup tiedStore ∧ RecordsInRange tiedStore
      ∧ (treat_patient tiedStore 1000 default).1 = true
      ∧ (treat_scan 1000 tiedStore.patients).best_id ∈ mapKeys tiedStore.patients :=
  ⟨by decide, by decide, by decide,
    (C9_treat_patient_removes_one tiedStore 1000 default (by decide) (by decide)
      (by decide)).1,
    (C9_treat_patient_removes_one tiedStore 1000 default (by decide) (by decide)
      (by decide)).2.1⟩

/-- C10, witness: the initial store. -/
theorem C10_treat_patient_empty_witness :
    TriageQueue.init.patients = []
      ∧ treat_patient TriageQueue.init 1000 ⟨9, "x", 1, 2, 3, 4, 5, 6⟩
          = (false, ⟨9, "x", 1, 2, 3, 4, 5, 6⟩, TriageQueue.init) :=
  ⟨rfl, (C10_treat_patient_empty TriageQueue.init 1000 ⟨9, "x", 1, 2, 3, 4, 5, 6⟩ rfl).1⟩

/-! ## The wait bonus over time -/

theorem waitBonus_eq_capped (arrival now : Int) :
    waitBonus arrival now = ((min 3600 (max 0 (now - arrival)) : Int) : ℚ) / 120 := by
  unfold waitBonus
  rcases le_total (max 0 (now - arrival)) 3600 with h | h
  · have hq : ((max 0 (now - arrival) : Int) : ℚ) ≤ 3600 := by exact_mod_cast h
    rw [min_eq_right h, min_eq_right (by linarith)]
  · have hq : (3600 : ℚ) ≤ ((max 0 (now - arrival) : Int) : ℚ) := by exact_mod_cast h
    rw [min_eq_left h, min_eq_left (by linarith)]
    norm_num

theorem waitBonus_mono (arrival now1 now2 : Int) (h : now1 ≤ now2) :
    waitBonus arrival now1 ≤ waitBonus arrival now2 := by
  rw [waitBonus_eq_capped, waitBonus_eq_capped]
  have hz : min 3600 (max 0 (now1 - arrival)) ≤ min 3600 (max 0 (now2 - arrival)) := by omega
  have hq : ((min 3600 (max 0 (now1 - arrival)) : Int) : ℚ)
      ≤ ((min 3600 (max 0 (now2 - arrival)) : Int) : ℚ) := by exact_mod_cast hz
  linarith

theorem waitBonus_range (arrival now : Int) :
    0 ≤ waitBonus arrival now ∧ waitBonus arrival now ≤ 30 := by
  rw [waitBonus_eq_capped]
  have h0 : (0 : Int) ≤ min 3600 (max 0 (now - arrival)) := by omega
  have h1 : min 3600 (max 0 (now - arrival)) ≤ (3600 : Int) := by omega
  generalize min 3600 (max 0 (now - arrival)) = z at h0 h1
  have q0 : (0 : ℚ) ≤ (z : ℚ) := by exact_mod_cast h0
  have q1 : (z : ℚ) ≤ 3600 := by exact_mod_cast h1
  constructor <;> linarith

theorem waitBonus_eq_thirty_iff (arrival now : Int) :
    waitBonus arrival now = 30 ↔ 3600 ≤ now - arrival := by
  rw [waitBonus_eq_capped]
  have hiff : min 3600 (max 0 (now - arrival)) = (3600 : Int) ↔ 3600 ≤ now - arrival := by
    omega
  rw [← hiff]
  generalize min 3600 (max 0 (now - arrival)) = z
  constructor
  · intro h
    have hq : (z : ℚ) = 3600 := by linarith
    exact_mod_cast hq
  · intro h
    rw [h]
    norm_num

theorem waitBonus_zero (arrival now : Int) (h : now ≤ arrival) : waitBonus arrival now = 0 := by
  rw [waitBonus_eq_capped]
  have hz : min 3600 (max 0 (now - arrival)) = (0 : Int) := by omega
  rw [hz]
  norm_num

theorem calculate_priority_sub_arrival (p : Patient) (now : Int) :
    calculate_priority p now - calculate_priority p p.arrival = waitBonus p.arrival now := by
  rw [calculate_priority_eq_specScore, calculate_priority_eq_specScore]
  unfold specScore
  rw [waitBonus_zero p.arrival p.arrival (le_refl _)]
  ring

/-- C12: for a fixed patient and clock values `now1 ≤ now2`, the wait bonus the code adds
(the score minus the score at the arrival time) is `min(30, max(0, now - arrival) / 120)`;
it does not decrease from `now1` to `now2`, is 0 whenever `now ≤ arrival`, lies between 0
and 30, and is exactly 30 if and only if `now - arrival ≥ 3600`; hence
`score(p, now1) ≤ score(p, now2) ≤ score(p, now1) + 30`. -/
theorem C12_wait_bonus_monotone (p : Patient) (now1 now2 : Int) (h : now1 ≤ now2) :
    (∀ now, calculate_priority p now - calculate_priority p p.arrival
        = min 30 (((max 0 (now - p.arrival) : Int) : ℚ) / 120))
      ∧ calculate_priority p now1 - calculate_priority p p.arrival
          ≤ calculate_priority p now2 - calculate_priority p p.arrival
      ∧ (∀ now, now ≤ p.arrival →
          calculate_priority p now - calculate_priority p p.arrival = 0)
      ∧ (∀ now, 0 ≤ calculate_priority p now - calculate_priority p p.arrival
          ∧ calculate_priority p now - calculate_priority p p.arrival ≤ 30)
      ∧ (∀ now, calculate_priority p now - calculate_priority p p.arrival = 30
          ↔ 3600 ≤ now - p.arrival)
      ∧ calculate_priority p now1 ≤ calculate_priority p now2
      ∧ calculate_priority p now2 ≤ calculate_priority p now1 + 30 := by
  have hm := waitBonus_mono p.arrival now1 now2 h
  have e1 := calculate_priority_sub_arrival p now1
  have e2 := calculate_priority_sub_arrival p now2
  have r1 := waitBonus_range p.arrival now1
  have r2 := waitBonus_range p.arrival now2
  refine ⟨fun now => ?_, ?_, fun now hle => ?_, fun now => ?_, fun now => ?_, ?_, ?_⟩
  · rw [calculate_priority_sub_arrival]; rfl
  · rw [e1, e2]; exact hm
  · rw [calculate_priority_sub_arrival]; exact waitBonus_zero _ _ hle
  · rw [calculate_priority_sub_arrival]; exact waitBonus_range _ _
  · rw [calculate_priority_sub_arrival]; exact waitBonus_eq_thirty_iff _ _
  · linarith
  · linarith [r1.1, r2.2]

/-- C12, witness: a patient who arrived at 1000, observed at 1060 and at 5000. -/
theorem C12_wait_bonus_monotone_witness :
    (1060 : Int) ≤ 5000
      ∧ calculate_priority ⟨1, "A", 40, 1, 80, 120, 97, 1000⟩ 1060
          ≤ calculate_priority ⟨1, "A", 40, 1, 80, 120, 97, 1000⟩ 5000
      ∧ calculate_priority ⟨1, "A", 40, 1, 80, 120, 97, 1000⟩ 5000
          ≤ calculate_priority ⟨1, "A", 40, 1, 80, 120, 97, 1000⟩ 1060 + 30 :=
  ⟨by decide,
    (C12_wait_bonus_monotone ⟨1, "A", 40, 1, 80, 120, 97, 1000⟩ 1060 5000
      (by decide)).2.2.2.2.2.1,
    (C12_wait_bonus_monotone ⟨1, "A", 40, 1, 80, 120, 97, 1000⟩ 1060 5000
      (by decide)).2.2.2.2.2.2⟩

/-! ## Scaled integer scores and the tolerance -/

theorem near_iff_int_eq (x y : Int) :
    |(x : ℚ) / 120 - (y : ℚ) / 120| < 1 / 1000000000 ↔ x = y := by
  constructor
  · intro h
    rw [abs_lt] at h
    obtain ⟨h1, h2⟩ := h
    have e : (x : ℚ) / 120 - (y : ℚ) / 120 = ((x - y : Int) : ℚ) / 120 := by push_cast; ring
    rw [e] at h1 h2
    have hd : x - y = 0 := by
      generalize x - y = d at h1 h2
      have h3 : ((-1 : Int) : ℚ) < (d : ℚ) := by push_cast; linarith
      have h4 : (d : ℚ) < ((1 : Int) : ℚ) := by push_cast; linarith
      have h5 : (-1 : Int) < d := by exact_mod_cast h3
      have h6 : d < (1 : Int) := by exact_mod_cast h4
      omega
    omega
  · intro h
    rw [h]
    norm_num

theorem int_div_lt_iff (x y : Int) : (x : ℚ) / 120 < (y : ℚ) / 120 ↔ x < y := by
  constructor
  · intro h
    have : (x : ℚ) < (y : ℚ) := by linarith
    exact_mod_cast this
  · intro h
    have : (x : ℚ) < (y : ℚ) := by exact_mod_cast h
    linarith

theorem int_div_eq_iff (x y : Int) : (x : ℚ) / 120 = (y : ℚ) / 120 ↔ x = y := by
  constructor
  · intro h
    have : (x : ℚ) = (y : ℚ) := by linarith
    exact_mod_cast this
  · intro h
    rw [h]

theorem treat_step_step120 (now : Int) (b : Best) (c : Best120) (kv : Int × Patient)
    (hid : b.best_id = c.best_id) (hpr : b.best_pr = (c.best_pr120 : ℚ) / 120)
    (harr : b.best_arrival = c.best_arrival) :
    (treat_step now b kv).best_id = (treat_step120 now c kv).best_id
      ∧ (treat_step now b kv).best_pr = ((treat_step120 now c kv).best_pr120 : ℚ) / 120
      ∧ (treat_step now b kv).best_arrival = (treat_step120 now c kv).best_arrival := by
  have hcond : (calculate_priority kv.2 now > b.best_pr
        ∨ (|calculate_priority kv.2 now - b.best_pr| < 1 / 1000000000
            ∧ kv.2.arrival < b.best_arrival))
      ↔ (score120 kv.2 now > c.best_pr120
        ∨ (score120 kv.2 now = c.best_pr120 ∧ kv.2.arrival < c.best_arrival)) := by
    rw [hpr, harr, calculate_priority_eq_score120, near_iff_int_eq, gt_iff_lt, int_div_lt_iff]
  unfold treat_step treat_step120
  simp only
  by_cases hc : score120 kv.2 now > c.best_pr120
      ∨ (score120 kv.2 now = c.best_pr120 ∧ kv.2.arrival < c.best_arrival)
  · rw [if_pos hc, if_pos (hcond.2 hc)]
    exact ⟨rfl, calculate_priority_eq_score120 kv.2 now, rfl⟩
  · rw [if_neg hc, if_neg (fun h => hc (hcond.1 h))]
    exact ⟨hid, hpr, harr⟩

theorem treat_foldl_foldl120 (now : Int) (m : PatientMap) :
    ∀ (b : Best) (c : Best120), b.best_id = c.best_id →
      b.best_pr = (c.best_pr120 : ℚ) / 120 → b.best_arrival = c.best_arrival →
      (m.foldl (treat_step now) b).best_id = (m.foldl (treat_step120 now) c).best_id
        ∧ (m.foldl (treat_step now) b).best_pr
            = ((m.foldl (treat_step120 now) c).best_pr120 : ℚ) / 120
        ∧ (m.foldl (treat_step now) b).best_arrival
            = (m.foldl (treat_step120 now) c).best_arrival := by
  induction m with
  | nil => intro b c h1 h2 h3; exact ⟨h1, h2, h3⟩
  | cons kv rest ih =>
    intro b c h1 h2 h3
    obtain ⟨g1, g2, g3⟩ := treat_step_step120 now b c kv h1 h2 h3
    exact ih _ _ g1 g2 g3

/-- C17: in exact arithmetic 120 times the score is the integer `score120`, that is
120 times the integer clinical part plus `min(3600, max(0, now - arrival))`; two scores
are equal or at least 1/120 apart; the tie test `|pr - best_pr| < 1e-9` of `treat_patient`
holds exactly when the scores are equal, so it agrees with the test `pa != pb` of
`list_queue`; and the loop of `treat_patient` selects the same record when it compares the
scaled integer scores without a tolerance. -/
theorem C17_scaled_integer_scores (p q : Patient) (now : Int) (m : PatientMap) :
    120 * calculate_priority p now = ((score120 p now : Int) : ℚ)
      ∧ score120 p now
          = 120 * (100 - 15 * (p.severity - 1)
              + (if p.spo2 < 90 then 20 else if p.spo2 ≤ 94 then 10 else 0)
              + (if p.hr ≥ 130 then 10 else 0)
              + (if p.sbp < 90 then 15 else 0)
              + (if p.age ≥ 65 then 5 else 0))
            + min 3600 (max 0 (now - p.arrival))
      ∧ (calculate_priority p now = calculate_priority q now
          ∨ 1 / 120 ≤ |calculate_priority p now - calculate_priority q now|)
      ∧ (|calculate_priority p now - calculate_priority q now| < 1 / 1000000000
          ↔ calculate_priority p now = calculate_priority q now)
      ∧ (¬ |calculate_priority p now - calculate_priority q now| < 1 / 1000000000
          ↔ calculate_priority p now ≠ calculate_priority q now)
      ∧ (|calculate_priority p now - calculate_priority q now| < 1 / 1000000000
          ↔ score120 p now = score120 q now)
      ∧ (calculate_priority p now > calculate_priority q now
          ↔ score120 p now > score120 q now)
      ∧ (treat_scan now m).best_id = (treat_scan120 now m).best_id
      ∧ (treat_scan now m).best_arrival = (treat_scan120 now m).best_arrival := by
  have hp := calculate_priority_eq_score120 p now
  have hq := calculate_priority_eq_score120 q now
  have hnear : |calculate_priority p now - calculate_priority q now| < 1 / 1000000000
      ↔ score120 p now = score120 q now := by
    rw [hp, hq]; exact near_iff_int_eq _ _
  have heq : calculate_priority p now = calculate_priority q now
      ↔ score120 p now = score120 q now := by
    rw [hp, hq]; exact int_div_eq_iff _ _
  have hscan := treat_foldl_foldl120 now m Best.start Best120.start rfl
    (by show (-1000000000000000000 : ℚ) = ((-120000000000000000000 : Int) : ℚ) / 120
        norm_num) rfl
  refine ⟨by rw [hp]; ring, rfl, ?_, hnear.trans heq.symm, ?_, hnear, ?_, hscan.1, hscan.2.2⟩
  · by_cases he : score120 p now = score120 q now
    · exact Or.inl (heq.2 he)
    · right
      rw [hp, hq]
      have e : (score120 p now : ℚ) / 120 - (score120 q now : ℚ) / 120
          = ((score120 p now - score120 q now : Int) : ℚ) / 120 := by push_cast; ring
      rw [e, abs_div, abs_of_pos (by norm_num : (0 : ℚ) < 120), ← Int.cast_abs]
      have h1 : (1 : Int) ≤ |score120 p now - score120 q now| := by
        have : score120 p now - score120 q now ≠ 0 := fun h0 => he (by omega)
        exact Int.one_le_abs this
      have h2 : ((1 : Int) : ℚ) ≤ ((|score120 p now - score120 q now| : Int) : ℚ) := by
        exact_mod_cast h1
      push_cast at h2 ⊢
      linarith
  · rw [hnear, ← heq]
  · rw [hp, hq, gt_iff_lt, int_div_lt_iff]

/-! ## The comparator is a strict weak ordering -/

/-- C18: for every clock value the comparator of `list_queue` puts `a` before `b` exactly
when `a` has the higher score, or the same score and the earlier arrival; it is
irreflexive, asymmetric and transitive; two patients are incomparable exactly when score
and arrival are equal, and incomparability is transitive: a strict weak ordering. -/
theorem C18_comparator_strict_weak_ordering (now : Int) :
    (∀ a b, list_queue_cmp now a b = true ↔
        (calculate_priority a now > calculate_priority b now
          ∨ (calculate_priority a now = calculate_priority b now ∧ a.arrival < b.arrival)))
      ∧ (∀ a, list_queue_cmp now a a = false)
      ∧ (∀ a b, list_queue_cmp now a b = true → list_queue_cmp now b a = false)
      ∧ (∀ a b c, list_queue_cmp now a b = true → list_queue_cmp now b c = true →
          list_queue_cmp now a c = true)
      ∧ (∀ a b, (list_queue_cmp now a b = false ∧ list_queue_cmp now b a = false) ↔
          (calculate_priority a now = calculate_priority b now ∧ a.arrival = b.arrival))
      ∧ (∀ a b c, (list_queue_cmp now a b = false ∧ list_queue_cmp now b a = false) →
          (list_queue_cmp now b c = false ∧ list_queue_cmp now c b = false) →
          (list_queue_cmp now a c = false ∧ list_queue_cmp now c a = false))
      ∧ StrictWeak (list_queue_cmp now) := by
  have hsw := list_queue_cmp_strictWeak now
  refine ⟨list_queue_cmp_iff now, hsw.irrefl, fun a b hab => hsw.asymm a b hab, hsw.trans,
    ?_, fun a b c h1 h2 => hsw.incomp_trans a b c h1.1 h1.2 h2.1 h2.2, hsw⟩
  intro a b
  rw [list_queue_cmp_false_iff, list_queue_cmp_false_iff]
  constructor
  · rintro ⟨h1 | ⟨e1, l1⟩, h2 | ⟨e2, l2⟩⟩
    · exact absurd h1 (lt_asymm h2)
    · rw [e2] at h1; exact absurd h1 (lt_irrefl _)
    · rw [e1] at h2; exact absurd h2 (lt_irrefl _)
    · exact ⟨e2, le_antisymm l2 l1⟩
  · rintro ⟨e, harr⟩
    exact ⟨Or.inr ⟨e.symm, by omega⟩, Or.inr ⟨e, by omega⟩⟩

/-! ## The score within 80 points of the severity base -/

theorem score_bounds (p : Patient) (now : Int) :
    severityBase p.severity ≤ calculate_priority p now
      ∧ calculate_priority p now ≤ severityBase p.severity + 80 := by
  rw [calculate_priority_eq_specScore]
  unfold specScore
  have hw := waitBonus_range p.arrival now
  have ho : 0 ≤ oxyAdj p.spo2 ∧ oxyAdj p.spo2 ≤ 20 := by
    unfold oxyAdj; split_ifs <;> norm_num
  have hh : 0 ≤ hrAdj p.hr ∧ hrAdj p.hr ≤ 10 := by
    unfold hrAdj; split_ifs <;> norm_num
  have hb : 0 ≤ bpAdj p.sbp ∧ bpAdj p.sbp ≤ 15 := by
    unfold bpAdj; split_ifs <;> norm_num
  have ha : 0 ≤ ageAdj p.age ∧ ageAdj p.age ≤ 5 := by
    unfold ageAdj; split_ifs <;> norm_num
  constructor <;> linarith [hw.1, hw.2, ho.1, ho.2, hh.1, hh.2, hb.1, hb.2, ha.1, ha.2]

theorem score_gt_of_severity_gap (a b : Patient) (now : Int)
    (h : a.severity + 6 ≤ b.severity) :
    calculate_priority a now > calculate_priority b now := by
  have ha := (score_bounds a now).1
  have hb := (score_bounds b now).2
  unfold severityBase at ha hb
  have hq : ((a.severity + 6 : Int) : ℚ) ≤ (b.severity : ℚ) := by exact_mod_cast h
  push_cast at hq
  linarith

/-- C19: the score of every patient lies between its severity base
`100 - 15 * (severity - 1)` and that base plus 80; so whenever `b.severity ≥ a.severity + 6`
the score of `a` is higher than that of `b` at every clock value, the comparator of
`list_queue` puts `a` before `b`, `list_queue` lists `a` before `b`, and `treat_patient`
does not return `b` while `a` is stored. -/
theorem C19_severity_gap_dominates (a b : Patient) (now : Int)
    (h : a.severity + 6 ≤ b.severity) :
    (∀ (p : Patient) (t : Int),
        100 - 15 * ((p.severity : ℚ) - 1) ≤ calculate_priority p t
          ∧ calculate_priority p t ≤ 180 - 15 * ((p.severity : ℚ) - 1))
      ∧ calculate_priority a now > calculate_priority b now
      ∧ list_queue_cmp now a b = true
      ∧ list_queue_cmp now b a = false
      ∧ (∀ (sort : (Patient → Patient → Bool) → List Patient → List Patient) (s : TriageQueue),
          StdSort sort → a ∈ mapValues s.patients → b ∈ mapValues s.patients →
          (list_queue sort s now).indexOf a < (list_queue sort s now).indexOf b)
      ∧ (∀ (s : TriageQueue) (out : Patient), KeysNodup s → RecordsInRange s →
          a ∈ mapValues s.patients → (treat_patient s now out).2.1 ≠ b) := by
  have hgt := score_gt_of_severity_gap a b now h
  have hab : list_queue_cmp now a b = true := (list_queue_cmp_iff now a b).2 (Or.inl hgt)
  have hba : list_queue_cmp now b a = false :=
    (list_queue_cmp_strictWeak now).asymm a b hab
  have hne : a ≠ b := by
    intro e
    rw [e] at hgt
    exact lt_irrefl _ hgt
  refine ⟨fun p t => ?_, hgt, hab, hba, ?_, ?_⟩
  · have := score_bounds p t
    unfold severityBase at this
    constructor <;> linarith [this.1, this.2]
  · intro sort s hsort hain hbin
    have hperm := hsort.perm (list_queue_cmp now) (mapValues s.patients)
      (list_queue_cmp_strictWeak now)
    have hord := hsort.ordered (list_queue_cmp now) (mapValues s.patients)
      (list_queue_cmp_strictWeak now)
    change List.Pairwise _ (list_queue sort s now) at hord
    change (list_queue sort s now).Perm _ at hperm
    have ha2 : a ∈ list_queue sort s now := (hperm.mem_iff).2 hain
    have hb2 : b ∈ list_queue sort s now := (hperm.mem_iff).2 hbin
    have hia := List.indexOf_lt_length.2 ha2
    have hib := List.indexOf_lt_length.2 hb2
    by_contra hnot
    rcases Nat.lt_or_ge ((list_queue sort s now).indexOf b)
        ((list_queue sort s now).indexOf a) with hlt | hge
    · have := (List.pairwise_iff_getElem.1 hord) _ _ hib hia hlt
      rw [List.getElem_indexOf hib, List.getElem_indexOf hia, hab] at this
      exact Bool.noConfusion this
    · have heq : (list_queue sort s now).indexOf a = (list_queue sort s now).indexOf b := by
        omega
      have e1 := List.getElem_indexOf hia
      have e2 := List.getElem_indexOf hib
      simp only [heq] at e1
      exact hne (e1.symm.trans e2)
  · intro s out hk hr hain
    have hnonempty : s.patients ≠ [] := by
      intro he
      rw [he] at hain
      simp [mapValues] at hain
    obtain ⟨kv, -, -, -, hres, hmax⟩ := treat_patient_nonempty s now out hnonempty hk hr
    rw [hres]
    simp only
    intro he
    obtain ⟨ka, hka, hka2⟩ := List.mem_map.1 hain
    have := (hmax ka hka).1
    rw [hka2, he] at this
    exact absurd hgt (not_lt.2 this)

/-- C19, witness: severity 1 against severity 7, both stored in `gapStore`. -/
theorem C19_severity_gap_dominates_witness :
    (1 : Int) + 6 ≤ 7
      ∧ calculate_priority ⟨1, "A", 40, 1, 80, 120, 97, 1000⟩ 5000
          > calculate_priority ⟨2, "B", 70, 7, 140, 85, 88, 0⟩ 5000
      ∧ list_queue_cmp 5000 ⟨1, "A", 40, 1, 80, 120, 97, 1000⟩
          ⟨2, "B", 70, 7, 140, 85, 88, 0⟩ = true
      ∧ StdSort stableSort
      ∧ (list_queue stableSort gapStore 5000).indexOf ⟨1, "A", 40, 1, 80, 120, 97, 1000⟩
          < (list_queue stableSort gapStore 5000).indexOf ⟨2, "B", 70, 7, 140, 85, 88, 0⟩
      ∧ KeysNodup gapStore ∧ RecordsInRange gapStore
      ∧ (treat_patient gapStore 5000 default).2.1 ≠ ⟨2, "B", 70, 7, 140, 85, 88, 0⟩ :=
  ⟨by decide,
    (C19_severity_gap_dominates ⟨1, "A", 40, 1, 80, 120, 97, 1000⟩
      ⟨2, "B", 70, 7, 140, 85, 88, 0⟩ 5000 (by decide)).2.1,
    (C19_severity_gap_dominates ⟨1, "A", 40, 1, 80, 120, 97, 1000⟩
      ⟨2, "B", 70, 7, 140, 85, 88, 0⟩ 5000 (by decide)).2.2.1,
    stableSort_stdSort,
    (C19_severity_gap_dominates ⟨1, "A", 40, 1, 80, 120, 97, 1000⟩
      ⟨2, "B", 70, 7, 140, 85, 88, 0⟩ 5000 (by decide)).2.2.2.2.1 stableSort gapStore
      stableSort_stdSort (by decide) (by decide),
    by decide, by decide,
    (C19_severity_gap_dominates ⟨1, "A", 40, 1, 80, 120, 97, 1000⟩
      ⟨2, "B", 70, 7, 140, 85, 88, 0⟩ 5000 (by decide)).2.2.2.2.2 gapStore default
      (by decide) (by decide) (by decide)⟩

/-! ## The scenario of the specification -/

theorem treat_patient_single (k n now : Int) (p out : Patient) (h : p.inRange) :
    treat_patient ⟨[(k, p)], n⟩ now out = (true, p, ⟨[], n⟩) := by
  have hscan : treat_scan now [(k, p)] = ⟨k, calculate_priority p now, p.arrival⟩ := by
    show treat_step now Best.start (k, p) = _
    exact treat_step_first now (k, p) h
  unfold treat_patient
  simp [hscan, mapIndex, mapFind, mapErase]

theorem treat_patient_pair_first (k1 k2 n now : Int) (p1 p2 out : Patient) (hk : k1 ≠ k2)
    (h1 : p1.inRange) (hgt : calculate_priority p1 now > calculate_priority p2 now) :
    treat_patient ⟨[(k1, p1), (k2, p2)], n⟩ now out = (true, p1, ⟨[(k2, p2)], n⟩) := by
  have hstep1 := treat_step_first now (k1, p1) h1
  have hscan : treat_scan now [(k1, p1), (k2, p2)]
      = ⟨k1, calculate_priority p1 now, p1.arrival⟩ := by
    show treat_step now (treat_step now Best.start (k1, p1)) (k2, p2) = _
    rw [hstep1]
    unfold treat_step
    simp only
    rw [if_neg]
    rintro (h | ⟨h, -⟩)
    · exact lt_asymm h hgt
    · have := score_eq_of_near p2 p1 now h
      rw [this] at hgt
      exact lt_irrefl _ hgt
  unfold treat_patient
  simp [hscan, mapIndex, mapFind, mapErase, hk, hk.symm]

theorem treat_patient_pair_second (k1 k2 n now : Int) (p1 p2 out : Patient) (hk : k1 ≠ k2)
    (h1 : p1.inRange) (hgt : calculate_priority p2 now > calculate_priority p1 now) :
    treat_patient ⟨[(k1, p1), (k2, p2)], n⟩ now out = (true, p2, ⟨[(k1, p1)], n⟩) := by
  have hstep1 := treat_step_first now (k1, p1) h1
  have hscan : treat_scan now [(k1, p1), (k2, p2)]
      = ⟨k2, calculate_priority p2 now, p2.arrival⟩ := by
    show treat_step now (treat_step now Best.start (k1, p1)) (k2, p2) = _
    rw [hstep1]
    unfold treat_step
    simp only
    rw [if_pos (Or.inl hgt)]
  unfold treat_patient
  simp [hscan, mapIndex, mapFind, mapErase, hk, hk.symm]

theorem scenario_scoreA (T : Int) :
    calculate_priority ⟨1, "A", 40, 1, 80, 120, 97, T⟩ T = 100 := by
  norm_num [calculate_priority]

theorem scenario_scoreB (T : Int) :
    calculate_priority ⟨2, "B", 70, 3, 140, 85, 88, T⟩ T = 120 := by
  norm_num [calculate_priority]

theorem scenario_inRangeA (T : Int) :
    Patient.inRange ⟨1, "A", 40, 1, 80, 120, 97, T⟩ := by
  unfold Patient.inRange inInt32
  norm_num

theorem scenario_inRangeB (T : Int) :
    Patient.inRange ⟨2, "B", 70, 3, 140, 85, 88, T⟩ := by
  unfold Patient.inRange inInt32
  norm_num

theorem scenario_after_adds (T : Int) :
    (add_patient (add_patient TriageQueue.init T "A" 40 1 80 120 97).2
        T "B" 70 3 140 85 88).2
      = ⟨[(2, ⟨2, "B", 70, 3, 140, 85, 88, T⟩), (1, ⟨1, "A", 40, 1, 80, 120, 97, T⟩)], 3⟩ := by
  rfl

/-- C13: on the initial store insert A (severity 1, spo2 97, hr 80, sbp 120, age 40) and
B (severity 3, spo2 88, hr 140, sbp 85, age 70) at the same clock value `T`.  Then the
score of A at `T` is 100 and that of B is 120, the ids are 1 and 2, the first
`treat_patient` at `T` returns B and the following one returns A, leaving the store
empty; the first result is B for the other iteration order of the map as well. -/
theorem C13_scenario_B_then_A
    (sort : (Patient → Patient → Bool) → List Patient → List Patient) (T now2 : Int) :
    calculate_priority ⟨1, "A", 40, 1, 80, 120, 97, T⟩ T = 100
      ∧ calculate_priority ⟨2, "B", 70, 3, 140, 85, 88, T⟩ T = 120
      ∧ (run sort TriageQueue.init (scenarioCalls T now2)).1
          = [Ret.newId 1, Ret.newId 2,
              Ret.treated true ⟨2, "B", 70, 3, 140, 85, 88, T⟩,
              Ret.treated true ⟨1, "A", 40, 1, 80, 120, 97, T⟩]
      ∧ (run sort TriageQueue.init (scenarioCalls T now2)).2 = ⟨[], 3⟩
      ∧ treat_patient
          ⟨[(1, ⟨1, "A", 40, 1, 80, 120, 97, T⟩), (2, ⟨2, "B", 70, 3, 140, 85, 88, T⟩)], 3⟩
          T default
          = (true, ⟨2, "B", 70, 3, 140, 85, 88, T⟩,
              ⟨[(1, ⟨1, "A", 40, 1, 80, 120, 97, T⟩)], 3⟩) := by
  have hgt : calculate_priority ⟨2, "B", 70, 3, 140, 85, 88, T⟩ T
      > calculate_priority ⟨1, "A", 40, 1, 80, 120, 97, T⟩ T := by
    rw [scenario_scoreA, scenario_scoreB]; norm_num
  have ht1 := treat_patient_pair_first 2 1 3 T ⟨2, "B", 70, 3, 140, 85, 88, T⟩
    ⟨1, "A", 40, 1, 80, 120, 97, T⟩ default (by decide) (scenario_inRangeB T) hgt
  have ht2 := treat_patient_single 1 3 now2 ⟨1, "A", 40, 1, 80, 120, 97, T⟩ default
    (scenario_inRangeA T)
  have ht3 := treat_patient_pair_second 1 2 3 T ⟨1, "A", 40, 1, 80, 120, 97, T⟩
    ⟨2, "B", 70, 3, 140, 85, 88, T⟩ default (by decide) (scenario_inRangeA T) hgt
  have hrun : run sort TriageQueue.init (scenarioCalls T now2)
      = ([Ret.newId 1, Ret.newId 2,
            Ret.treated true ⟨2, "B", 70, 3, 140, 85, 88, T⟩,
            Ret.treated true ⟨1, "A", 40, 1, 80, 120, 97, T⟩], ⟨[], 3⟩) := by
    simp only [scenarioCalls, run, step, scenario_after_adds, ht1, ht2]
    rfl
  refine ⟨scenario_scoreA T, scenario_scoreB T, ?_, ?_, ht3⟩
  · rw [hrun]
  · rw [hrun]

/-! ## Treating every record -/

theorem mapErase_mapIndex (m : PatientMap) (k : Int) :
    mapErase (mapIndex m k).2 k = mapErase m k := by
  unfold mapIndex
  cases h : mapFind m k with
  | some v => rfl
  | none => simp [mapErase]

theorem treat_patient_patients (s : TriageQueue) (now : Int) (out : Patient) :
    (treat_patient s now out).2.2.patients = s.patients
      ∨ (treat_patient s now out).2.2.patients
          = mapErase s.patients (treat_scan now s.patients).best_id := by
  unfold treat_patient
  split_ifs
  · exact Or.inl rfl
  · right
    exact mapErase_mapIndex _ _

theorem mapErase_sublist (m : PatientMap) (k : Int) : List.Sublist (mapErase m k) m := by
  unfold mapErase
  exact List.filter_sublist m

theorem treat_patient_sublist (s : TriageQueue) (now : Int) (out : Patient) :
    List.Sublist (treat_patient s now out).2.2.patients s.patients := by
  rcases treat_patient_patients s now out with h | h
  · rw [h]
  · rw [h]; exact mapErase_sublist _ _

theorem keysNodup_of_sublist (s t : TriageQueue) (h : List.Sublist t.patients s.patients)
    (hk : KeysNodup s) : KeysNodup t := by
  unfold KeysNodup mapKeys at *
  exact List.Nodup.sublist (h.map Prod.fst) hk

theorem keyIsId_of_sublist (s t : TriageQueue) (h : List.Sublist t.patients s.patients)
    (hid : KeyIsId s) : KeyIsId t :=
  fun kv hkv => hid kv (h.subset hkv)

theorem recordsInRange_of_sublist (s t : TriageQueue)
    (h : List.Sublist t.patients s.patients) (hr : RecordsInRange s) : RecordsInRange t := by
  intro q hq
  exact hr q ((h.map Prod.snd).subset hq)

theorem treat_all_spec : ∀ (clocks : List Int) (s : TriageQueue),
    clocks.length = s.patients.length → KeysNodup s → RecordsInRange s →
    (∀ r ∈ (treat_all s clocks).1, r.1 = true)
      ∧ (treat_all s clocks).1.length = clocks.length
      ∧ ((treat_all s clocks).1.map (fun r => r.2)).Perm (mapValues s.patients)
      ∧ (treat_all s clocks).2.patients = []
      ∧ (treat_all s clocks).2.next_id = s.next_id := by
  intro clocks
  induction clocks with
  | nil =>
    intro s hlen _ _
    have hnil : s.patients = [] := List.length_eq_zero.1 hlen.symm
    simp [treat_all, hnil, mapValues]
  | cons now rest ih =>
    intro s hlen hk hr
    have hne : s.patients ≠ [] := by
      intro he
      rw [he] at hlen
      simp at hlen
    obtain ⟨kv, hmem, -, -, hres, -⟩ := treat_patient_nonempty s now default hne hk hr
    have hperm := mapErase_perm s.patients kv.1 kv.2 hk hmem
    have hsub : List.Sublist (mapErase s.patients kv.1) s.patients := mapErase_sublist _ _
    have hk2 : KeysNodup ⟨mapErase s.patients kv.1, s.next_id⟩ :=
      keysNodup_of_sublist s _ hsub hk
    have hr2 : RecordsInRange ⟨mapErase s.patients kv.1, s.next_id⟩ :=
      recordsInRange_of_sublist s _ hsub hr
    have hlen2 : rest.length = (mapErase s.patients kv.1).length := by
      have := hperm.length_eq
      simp only [List.length_cons] at this hlen
      omega
    obtain ⟨i1, i2, i3, i4, i5⟩ := ih ⟨mapErase s.patients kv.1, s.next_id⟩ hlen2 hk2 hr2
    have hunf : treat_all s (now :: rest)
        = ((true, kv.2) :: (treat_all ⟨mapErase s.patients kv.1, s.next_id⟩ rest).1,
            (treat_all ⟨mapErase s.patients kv.1, s.next_id⟩ rest).2) := by
      have h0 : treat_all s (now :: rest)
          = (((treat_patient s now default).1, (treat_patient s now default).2.1)
              :: (treat_all (treat_patient s now default).2.2 rest).1,
            (treat_all (treat_patient s now default).2.2 rest).2) := rfl
      rw [h0, hres]
    rw [hunf]
    refine ⟨?_, ?_, ?_, i4, i5⟩
    · intro r hr0
      rcases List.mem_cons.1 hr0 with h | h
      · rw [h]
      · exact i1 r h
    · simp only [List.length_cons, i2]
    · simp only [List.map_cons]
      have h1 : (kv.2 :: (treat_all ⟨mapErase s.patients kv.1, s.next_id⟩ rest).1.map
          (fun r => r.2)).Perm (kv.2 :: mapValues (mapErase s.patients kv.1)) := i3.cons kv.2
      have h2 : (mapValues s.patients).Perm (kv.2 :: mapValues (mapErase s.patients kv.1)) := by
        have := hperm.map Prod.snd
        simpa [mapValues] using this
      exact h1.trans h2.symm

/-- C11: on a store with N records (no key twice, every record under its own id, fields
within `int`), N consecutive `treat_patient` calls at arbitrary clock values all return
true; the N returned records are, up to order, exactly the records stored at the start,
with pairwise distinct ids; the store is empty afterwards (the counter unchanged) and one
more call returns false. -/
theorem C11_treat_all_empties_store (s : TriageQueue) (clocks : List Int) (nowLast : Int)
    (out : Patient) (hlen : clocks.length = s.patients.length)
    (hk : KeysNodup s) (hid : KeyIsId s) (hr : RecordsInRange s) :
    (∀ r ∈ (treat_all s clocks).1, r.1 = true)
      ∧ (treat_all s clocks).1.length = s.patients.length
      ∧ ((treat_all s clocks).1.map (fun r => r.2)).Perm (mapValues s.patients)
      ∧ ((treat_all s clocks).1.map (fun r => r.2.id)).Nodup
      ∧ (treat_all s clocks).2.patients = []
      ∧ (treat_all s clocks).2.next_id = s.next_id
      ∧ (treat_patient (treat_all s clocks).2 nowLast out).1 = false := by
  obtain ⟨h1, h2, h3, h4, h5⟩ := treat_all_spec clocks s hlen hk hr
  refine ⟨h1, by rw [h2, hlen], h3, ?_, h4, h5, ?_⟩
  · have e : (treat_all s clocks).1.map (fun r => r.2.id)
        = ((treat_all s clocks).1.map (fun r => r.2)).map Patient.id := by
      rw [List.map_map]; rfl
    rw [e, ((h3.map Patient.id).nodup_iff)]
    have e2 : (mapValues s.patients).map Patient.id = mapKeys s.patients := by
      unfold mapValues mapKeys
      rw [List.map_map]
      apply List.map_congr_left
      intro kv hkv
      exact hid kv hkv
    rw [e2]
    exact hk
  · unfold treat_patient
    rw [h4]
    rfl

/-- C11, witness: the store with two tied records, treated at clock values 1000 and 1001. -/
theorem C11_treat_all_empties_store_witness :
    [(1000 : Int), 1001].length = tiedStore.patients.length
      ∧ KeysNodup tiedStore ∧ KeyIsId tiedStore ∧ RecordsInRange tiedStore
      ∧ ((treat_all tiedStore [1000, 1001]).1.map (fun r => r.2)).Perm
          (mapValues tiedStore.patients)
      ∧ (treat_all tiedStore [1000, 1001]).2.patients = []
      ∧ (treat_patient (treat_all tiedStore [1000, 1001]).2 1002 default).1 = false :=
  ⟨by decide, by decide, by decide, by decide,
    (C11_treat_all_empties_store tiedStore [1000, 1001] 1002 default (by decide) (by decide)
      (by decide) (by decide)).2.2.1,
    (C11_treat_all_empties_store tiedStore [1000, 1001] 1002 default (by decide) (by decide)
      (by decide) (by decide)).2.2.2.2.1,
    (C11_treat_all_empties_store tiedStore [1000, 1001] 1002 default (by decide) (by decide)
      (by decide) (by decide)).2.2.2.2.2.2⟩

/-! ## The store invariant -/

theorem add_patient_fresh (s : TriageQueue) (now : Int) (name : String)
    (age severity hr sbp spo2 : Int) (h : s.next_id ∉ mapKeys s.patients) :
    (add_patient s now name age severity hr sbp spo2).2.patients
      = (s.next_id, ⟨s.next_id, name, age, severity, hr, sbp, spo2, now⟩) :: s.patients := by
  unfold add_patient mapAssign
  simp only
  rw [(mapFind_eq_none_iff s.patients s.next_id).2 h]

theorem storeInv_fresh (s : TriageQueue) (h : StoreInv s) : s.next_id ∉ mapKeys s.patients := by
  intro hmem
  have := (h.2.2.2 s.next_id hmem).2
  exact lt_irrefl _ this

theorem mem_mapReplace (m : PatientMap) (k : Int) (v : Patient) (kv : Int × Patient)
    (h : kv ∈ mapReplace m k v) : kv = (k, v) ∨ kv ∈ m := by
  induction m with
  | nil => simp [mapReplace] at h
  | cons a rest ih =>
    unfold mapReplace at h
    split_ifs at h with he
    · rcases List.mem_cons.1 h with h1 | h1
      · exact Or.inl h1
      · exact Or.inr (List.mem_cons_of_mem _ h1)
    · rcases List.mem_cons.1 h with h1 | h1
      · exact Or.inr (by rw [h1]; exact List.mem_cons_self _ _)
      · rcases ih h1 with h2 | h2
        · exact Or.inl h2
        · exact Or.inr (List.mem_cons_of_mem _ h2)

theorem storeInv_add (s : TriageQueue) (now : Int) (name : String)
    (age severity hr sbp spo2 : Int) (h : StoreInv s) (hno : s.next_id < 2147483647) :
    StoreInv (add_patient s now name age severity hr sbp spo2).2 := by
  have hfresh := storeInv_fresh s h
  have hpat := add_patient_fresh s now name age severity hr sbp spo2 hfresh
  have hnext : (add_patient s now name age severity hr sbp spo2).2.next_id = s.next_id + 1 := by
    show wrapInt32 (s.next_id + 1) = s.next_id + 1
    apply wrapInt32_of_inRange
    have := h.2.2.1
    unfold inInt32
    omega
  obtain ⟨hk, hid, h1, hb⟩ := h
  refine ⟨?_, ?_, ?_, ?_⟩
  · unfold KeysNodup at *
    rw [hpat]
    simp only [mapKeys, List.map_cons, List.nodup_cons]
    exact ⟨hfresh, hk⟩
  · intro kv hkv
    rw [hpat] at hkv
    rcases List.mem_cons.1 hkv with e | e
    · rw [e]
    · exact hid kv e
  · rw [hnext]; omega
  · intro k hkm
    rw [hnext]
    rw [hpat] at hkm
    simp only [mapKeys, List.map_cons, List.mem_cons] at hkm
    rcases hkm with e | e
    · rw [e]; omega
    · have := hb k e
      omega

theorem storeInv_update (s : TriageQueue) (id age severity hr sbp spo2 : Int)
    (h : StoreInv s) : StoreInv (update_patient s id age severity hr sbp spo2).2 := by
  unfold update_patient
  cases hf : mapFind s.patients id with
  | none => exact h
  | some old =>
    obtain ⟨hk, hid, h1, hb⟩ := h
    refine ⟨?_, ?_, h1, ?_⟩
    · unfold KeysNodup at *
      simp only
      rw [mapKeys_mapReplace]
      exact hk
    · intro kv hkv
      rcases mem_mapReplace _ _ _ _ hkv with e | e
      · rw [e]
      · exact hid kv e
    · intro k hkm
      simp only at hkm
      rw [mapKeys_mapReplace] at hkm
      exact hb k hkm

theorem storeInv_treat (s : TriageQueue) (now : Int) (out : Patient) (h : StoreInv s) :
    StoreInv (treat_patient s now out).2.2 := by
  have hsub := treat_patient_sublist s now out
  obtain ⟨hk, hid, h1, hb⟩ := h
  refine ⟨keysNodup_of_sublist s _ hsub hk, keyIsId_of_sublist s _ hsub hid, ?_, ?_⟩
  · rw [treat_patient_next_id]; exact h1
  · intro k hkm
    rw [treat_patient_next_id]
    exact hb k ((hsub.map Prod.fst).subset hkm)

theorem storeInv_clear (s : TriageQueue) : StoreInv (clear_all s) := by
  unfold clear_all
  decide

theorem storeInv_ids_nodup (s : TriageQueue) (h : StoreInv s) :
    ((mapValues s.patients).map Patient.id).Nodup := by
  have e : (mapValues s.patients).map Patient.id = mapKeys s.patients := by
    unfold mapValues mapKeys
    rw [List.map_map]
    apply List.map_congr_left
    intro kv hkv
    exact h.2.1 kv hkv
  rw [e]
  exact h.1

theorem reachable_storeInv (s : TriageQueue) (h : Reachable s) : StoreInv s := by
  induction h with
  | init => decide
  | add s now name age severity hr sbp spo2 _ hno ih =>
    exact storeInv_add s now name age severity hr sbp spo2 ih hno
  | update s id age severity hr sbp spo2 _ ih =>
    exact storeInv_update s id age severity hr sbp spo2 ih
  | treat s now out _ ih => exact storeInv_treat s now out ih
  | clear s _ _ => exact storeInv_clear s

/-- C15: the store invariant (no key twice, every record stored under a key equal to its
id, counter at least 1, every key `k` with `1 ≤ k < next_id`) holds initially and is
preserved by `add_patient` (when the increment of the counter does not overflow), by
`update_patient`, `treat_patient`, `list_queue` and `clear_all`; it therefore holds in every
reachable state, and under it no two stored records share an id. -/
theorem C15_store_invariant :
    StoreInv TriageQueue.init
      ∧ (∀ (s : TriageQueue) (now : Int) (name : String) (age severity hr sbp spo2 : Int),
          StoreInv s → s.next_id < 2147483647 →
          StoreInv (add_patient s now name age severity hr sbp spo2).2)
      ∧ (∀ (s : TriageQueue) (id age severity hr sbp spo2 : Int),
          StoreInv s → StoreInv (update_patient s id age severity hr sbp spo2).2)
      ∧ (∀ (s : TriageQueue) (now : Int) (out : Patient),
          StoreInv s → StoreInv (treat_patient s now out).2.2)
      ∧ (∀ (sort : (Patient → Patient → Bool) → List Patient → List Patient)
            (s : TriageQueue) (now : Int),
          StoreInv s → StoreInv (step sort s now Op.list).2)
      ∧ (∀ (s : TriageQueue), StoreInv s → StoreInv (clear_all s))
      ∧ (∀ (s : TriageQueue), Reachable s → StoreInv s)
      ∧ (∀ (s : TriageQueue), StoreInv s →
          (∀ kv ∈ s.patients, kv.2.id = kv.1)
            ∧ (∀ k ∈ mapKeys s.patients, 1 ≤ k ∧ k < s.next_id)
            ∧ ((mapValues s.patients).map Patient.id).Nodup) := by
  refine ⟨by decide, storeInv_add, storeInv_update, storeInv_treat, ?_, ?_, reachable_storeInv,
    ?_⟩
  · intro sort s now h
    exact h
  · intro s _
    exact storeInv_clear s
  · intro s h
    exact ⟨h.2.1, h.2.2.2, storeInv_ids_nodup s h⟩

/-- C15, witness: the invariant on the two-record store, before and after one more
insertion, an update, a treatment and a reset. -/
theorem C15_store_invariant_witness :
    StoreInv tiedStore ∧ tiedStore.next_id < 2147483647
      ∧ StoreInv (add_patient tiedStore 1001 "D" 50 2 90 100 95).2
      ∧ StoreInv (update_patient tiedStore 1 41 2 81 121 96).2
      ∧ StoreInv (treat_patient tiedStore 1000 default).2.2
      ∧ StoreInv (clear_all tiedStore)
      ∧ ((mapValues tiedStore.patients).map Patient.id).Nodup :=
  ⟨by decide, by decide,
    C15_store_invariant.2.1 tiedStore 1001 "D" 50 2 90 100 95 (by decide) (by decide),
    C15_store_invariant.2.2.1 tiedStore 1 41 2 81 121 96 (by decide),
    C15_store_invariant.2.2.2.1 tiedStore 1000 default (by decide),
    C15_store_invariant.2.2.2.2.2.1 tiedStore (by decide),
    (C15_store_invariant.2.2.2.2.2.2.2 tiedStore (by decide)).2.2⟩

/-! ## `add_patient` -/

/-- C14: in every reachable state `add_patient` returns the current value of the counter
as the new id; afterwards the record stored under that id has that id, the given name and
five clinical values and arrival `now`; the id was not a key before, so nothing is
overwritten: every entry stored before is still stored, unchanged, and the map has exactly
one entry more. -/
theorem C14_add_patient_inserts (s : TriageQueue) (hreach : Reachable s) (now : Int)
    (name : String) (age severity hr sbp spo2 : Int) :
    (add_patient s now name age severity hr sbp spo2).1 = s.next_id
      ∧ mapFind (add_patient s now name age severity hr sbp spo2).2.patients s.next_id
          = some ⟨s.next_id, name, age, severity, hr, sbp, spo2, now⟩
      ∧ s.next_id ∉ mapKeys s.patients
      ∧ (∀ kv ∈ s.patients, kv ∈ (add_patient s now name age severity hr sbp spo2).2.patients)
      ∧ (∀ k v, mapFind s.patients k = some v →
          mapFind (add_patient s now name age severity hr sbp spo2).2.patients k = some v)
      ∧ (add_patient s now name age severity hr sbp spo2).2.patients.Perm
          ((s.next_id, ⟨s.next_id, name, age, severity, hr, sbp, spo2, now⟩) :: s.patients)
      ∧ (add_patient s now name age severity hr sbp spo2).2.patients.length
          = s.patients.length + 1 := by
  have hinv := reachable_storeInv s hreach
  have hfresh := storeInv_fresh s hinv
  have hpat := add_patient_fresh s now name age severity hr sbp spo2 hfresh
  rw [hpat]
  refine ⟨rfl, by simp [mapFind], hfresh, ?_, ?_, List.Perm.refl _, by simp⟩
  · intro kv hkv
    exact List.mem_cons_of_mem _ hkv
  · intro k v hkv
    have hne : s.next_id ≠ k := by
      intro e
      apply hfresh
      rw [e]
      exact List.mem_map.2 ⟨(k, v), mapFind_mem _ _ _ hkv, rfl⟩
    simp only [mapFind, if_neg hne]
    exact hkv

/-- C14, witness: one more insertion into the reachable two-record store. -/
theorem C14_add_patient_inserts_witness :
    Reachable tiedStore
      ∧ (add_patient tiedStore 1001 "D" 50 2 90 100 95).1 = 3
      ∧ (add_patient tiedStore 1001 "D" 50 2 90 100 95).2.patients.length = 3 :=
  ⟨Reachable.add _ 1000 "C" 40 1 80 120 97
      (Reachable.add _ 1000 "A" 40 1 80 120 97 Reachable.init (by decide)) (by decide),
    (C14_add_patient_inserts tiedStore
      (Reachable.add _ 1000 "C" 40 1 80 120 97
        (Reachable.add _ 1000 "A" 40 1 80 120 97 Reachable.init (by decide)) (by decide))
      1001 "D" 50 2 90 100 95).1,
    (C14_add_patient_inserts tiedStore
      (Reachable.add _ 1000 "C" 40 1 80 120 97
        (Reachable.add _ 1000 "A" 40 1 80 120 97 Reachable.init (by decide)) (by decide))
      1001 "D" 50 2 90 100 95).2.2.2.2.2.2⟩

/-! ## Rounding to binary64 -/

theorem roundHalfEven_ge_floor (q : ℚ) : ⌊q⌋ ≤ roundHalfEven q := by
  unfold roundHalfEven
  simp only
  split_ifs <;> omega

theorem roundHalfEven_eq_of_near (q : ℚ) (m : Int) (h : |q - (m : ℚ)| < 1 / 2) :
    roundHalfEven q = m := by
  rw [abs_lt] at h
  obtain ⟨h1, h2⟩ := h
  unfold roundHalfEven
  simp only
  rcases le_or_lt (m : ℚ) q with hge | hlt
  · have hf : ⌊q⌋ = m := by
      rw [Int.floor_eq_iff]
      constructor <;> linarith
    rw [hf, if_pos (by linarith)]
  · have hf : ⌊q⌋ = m - 1 := by
      rw [Int.floor_eq_iff]
      push_cast
      constructor <;> linarith
    rw [hf]
    push_cast
    rw [if_neg (by linarith), if_pos (by linarith)]
    ring

theorem log_two_abs_eq (x : ℚ) (e : Int) (h1 : (2 : ℚ) ^ e ≤ |x|) (h2 : |x| < (2 : ℚ) ^ (e + 1)) :
    Int.log 2 |x| = e := by
  have hpos : (0 : ℚ) < |x| := lt_of_lt_of_le (by positivity) h1
  have ha : e ≤ Int.log 2 |x| := by
    rw [← Int.zpow_le_iff_le_log (by norm_num) hpos]
    exact_mod_cast h1
  have hb : Int.log 2 |x| < e + 1 := by
    rw [← Int.lt_zpow_iff_log_lt (by norm_num) hpos]
    exact_mod_cast h2
  omega

theorem roundDouble_eq_of (x : ℚ) (a : ℕ) (m : Int) (ha : a ≤ 52)
    (h1 : (2 : ℚ) ^ a ≤ |x|) (h2 : |x| < (2 : ℚ) ^ (a + 1))
    (h3 : |x * (2 : ℚ) ^ (52 - a) - (m : ℚ)| < 1 / 2) :
    roundDouble x = (m : ℚ) / (2 : ℚ) ^ (52 - a) := by
  have hpos : (0 : ℚ) < |x| := lt_of_lt_of_le (by positivity) h1
  have hx : x ≠ 0 := abs_pos.1 hpos
  have hlog : Int.log 2 |x| = (a : Int) := by
    apply log_two_abs_eq
    · exact_mod_cast h1
    · exact_mod_cast h2
  have hulp : (2 : ℚ) ^ ((a : Int) - 52) = ((2 : ℚ) ^ (52 - a))⁻¹ := by
    have e : (a : Int) - 52 = -((52 - a : ℕ) : Int) := by omega
    rw [e, zpow_neg, zpow_natCast]
  unfold roundDouble
  rw [if_neg hx]
  simp only
  rw [hlog, hulp, div_inv_eq_mul, roundHalfEven_eq_of_near _ m h3]
  rfl

theorem roundDouble_nonneg (x : ℚ) (h : 0 ≤ x) : 0 ≤ roundDouble x := by
  unfold roundDouble
  split_ifs with hx
  · exact le_refl _
  · simp only
    have hulp : (0 : ℚ) < (2 : ℚ) ^ (Int.log 2 |x| - 52) := by positivity
    have hq : (0 : ℚ) ≤ x / (2 : ℚ) ^ (Int.log 2 |x| - 52) := div_nonneg h (le_of_lt hulp)
    have hf : (0 : Int) ≤ ⌊x / (2 : ℚ) ^ (Int.log 2 |x| - 52)⌋ := Int.floor_nonneg.2 hq
    have hr : (0 : Int) ≤ roundHalfEven (x / (2 : ℚ) ^ (Int.log 2 |x| - 52)) :=
      le_trans hf (roundHalfEven_ge_floor _)
    have hrq : (0 : ℚ) ≤ (roundHalfEven (x / (2 : ℚ) ^ (Int.log 2 |x| - 52)) : ℚ) := by
      exact_mod_cast hr
    exact mul_nonneg hrq (le_of_lt hulp)

theorem roundDouble_ge (x : ℚ) : -(2 * |x|) ≤ roundDouble x := by
  unfold roundDouble
  split_ifs with hx
  · simp [hx]
  · simp only
    have hpos : (0 : ℚ) < |x| := abs_pos.2 hx
    have hlo : ((2 : ℕ) : ℚ) ^ Int.log 2 |x| ≤ |x| := Int.zpow_log_le_self (by norm_num) hpos
    have hhi : |x| < ((2 : ℕ) : ℚ) ^ (Int.log 2 |x| + 1) :=
      Int.lt_zpow_succ_log_self (by norm_num) |x|
    push_cast at hlo hhi
    generalize Int.log 2 |x| = e at hlo hhi ⊢
    have hulp : (0 : ℚ) < (2 : ℚ) ^ (e - 52) := by positivity
    have hsplit : (2 : ℚ) ^ (e + 1) = 9007199254740992 * (2 : ℚ) ^ (e - 52) := by
      have e1 : e + 1 = 53 + (e - 52) := by ring
      rw [e1, zpow_add₀ (by norm_num : (2 : ℚ) ≠ 0)]
      norm_num
    have hsplit2 : (2 : ℚ) ^ (e + 1) = 2 * (2 : ℚ) ^ e := by
      rw [zpow_add_one₀ (by norm_num : (2 : ℚ) ≠ 0)]
      ring
    have hxlo : -(9007199254740992 * (2 : ℚ) ^ (e - 52)) ≤ x := by
      have := neg_abs_le x
      rw [← hsplit]
      linarith
    have hq : ((-9007199254740992 : Int) : ℚ) ≤ x / (2 : ℚ) ^ (e - 52) := by
      rw [le_div_iff₀ hulp]
      push_cast
      linarith
    have hf : (-9007199254740992 : Int) ≤ ⌊x / (2 : ℚ) ^ (e - 52)⌋ := Int.le_floor.2 hq
    have hr : (-9007199254740992 : Int) ≤ roundHalfEven (x / (2 : ℚ) ^ (e - 52)) :=
      le_trans hf (roundHalfEven_ge_floor _)
    have hrq : ((-9007199254740992 : Int) : ℚ)
        ≤ (roundHalfEven (x / (2 : ℚ) ^ (e - 52)) : ℚ) := by exact_mod_cast hr
    push_cast at hrq
    have hmul := mul_le_mul_of_nonneg_right hrq (le_of_lt hulp)
    have hbound : 2 * (2 : ℚ) ^ e ≤ 2 * |x| := by linarith
    linarith

theorem calculate_priority_f64_gt_start (p : Patient) (now : Int) (h : p.inRange) :
    Best.start.best_pr < calculate_priority_f64 p now := by
  obtain ⟨-, ⟨hs1, hs2⟩, -, -, -⟩ := h
  have q1 : ((-2147483648 : Int) : ℚ) ≤ (p.severity : ℚ) := by exact_mod_cast hs1
  have q2 : (p.severity : ℚ) ≤ ((2147483647 : Int) : ℚ) := by exact_mod_cast hs2
  push_cast at q1 q2
  show (-1000000000000000000 : ℚ) < calculate_priority_f64 p now
  unfold calculate_priority_f64
  simp only
  have hm : 0 ≤ roundDouble (roundDouble ((max 0 (now - p.arrival) : Int) : ℚ) / 60) := by
    apply roundDouble_nonneg
    apply div_nonneg _ (by norm_num)
    apply roundDouble_nonneg
    have : (0 : Int) ≤ max 0 (now - p.arrival) := le_max_left _ _
    exact_mod_cast this
  have hw0 : 0 ≤ min 30
      (roundDouble (roundDouble ((max 0 (now - p.arrival) : Int) : ℚ) / 60) * (1 / 2)) :=
    le_min (by norm_num) (by linarith)
  have hw1 : min 30
      (roundDouble (roundDouble ((max 0 (now - p.arrival) : Int) : ℚ) / 60) * (1 / 2)) ≤ 30 :=
    min_le_left _ _
  generalize min 30
    (roundDouble (roundDouble ((max 0 (now - p.arrival) : Int) : ℚ) / 60) * (1 / 2)) = w
    at hw0 hw1
  refine lt_of_lt_of_le ?_ (roundDouble_ge _)
  have hb : ∀ B : ℚ, -100000000000 ≤ B → B ≤ 100000000000 →
      (-1000000000000000000 : ℚ) < -(2 * |B + w|) := by
    intro B h1 h2
    have : |B + w| ≤ 100000000030 := abs_le.2 ⟨by linarith, by linarith⟩
    linarith
  apply hb <;> (push_cast; split_ifs <;> linarith)

theorem roundHalfEven_tie_even (q : ℚ) (m : Int) (h : q = (m : ℚ) + 1 / 2) (hm : m % 2 = 0) :
    roundHalfEven q = m := by
  have hf : ⌊q⌋ = m := by
    rw [Int.floor_eq_iff]
    constructor <;> linarith
  unfold roundHalfEven
  simp only
  rw [hf, if_neg (by linarith), if_neg (by linarith), if_pos hm]

theorem roundDouble_eq_of_tie (x : ℚ) (a : ℕ) (m : Int) (ha : a ≤ 52)
    (h1 : (2 : ℚ) ^ a ≤ |x|) (h2 : |x| < (2 : ℚ) ^ (a + 1))
    (h3 : x * (2 : ℚ) ^ (52 - a) = (m : ℚ) + 1 / 2) (hm : m % 2 = 0) :
    roundDouble x = (m : ℚ) / (2 : ℚ) ^ (52 - a) := by
  have hpos : (0 : ℚ) < |x| := lt_of_lt_of_le (by positivity) h1
  have hx : x ≠ 0 := abs_pos.1 hpos
  have hlog : Int.log 2 |x| = (a : Int) := by
    apply log_two_abs_eq
    · exact_mod_cast h1
    · exact_mod_cast h2
  have hulp : (2 : ℚ) ^ ((a : Int) - 52) = ((2 : ℚ) ^ (52 - a))⁻¹ := by
    have e : (a : Int) - 52 = -((52 - a : ℕ) : Int) := by omega
    rw [e, zpow_neg, zpow_natCast]
  unfold roundDouble
  rw [if_neg hx]
  simp only
  rw [hlog, hulp, div_inv_eq_mul, roundHalfEven_tie_even _ m h3 hm]
  rfl

/-! ## Two patients whose exact scores tie and whose `double` scores differ in the last bit -/

theorem ulp_scoreA :
    calculate_priority_f64 ⟨1, "a", 40, 2, 80, 120, 92, 1700000000⟩ 1700000961
      = 7248567056500872 / 70368744177664 := by
  have e : calculate_priority_f64 ⟨1, "a", 40, 2, 80, 120, 92, 1700000000⟩ 1700000961
      = roundDouble (95 + min 30 (roundDouble (roundDouble (961 : ℚ) / 60) * (1 / 2))) := by
    norm_num [calculate_priority_f64]
  have r1 : roundDouble (961 : ℚ) = 961 := by
    rw [roundDouble_eq_of 961 9 8453045394341888 (by norm_num) (by norm_num) (by norm_num)
      (by norm_num)]
    norm_num
  have r2 : roundDouble ((961 : ℚ) / 60) = 4508290876982340 / 281474976710656 := by
    rw [roundDouble_eq_of (961 / 60) 4 4508290876982340 (by norm_num)
      (by norm_num [abs_of_pos]) (by norm_num [abs_of_pos]) (by norm_num [abs_lt])]
    norm_num
  have hmin : min (30 : ℚ) (4508290876982340 / 281474976710656 * (1 / 2))
      = 4508290876982340 / 562949953421312 := by
    rw [min_eq_right (by norm_num)]
    norm_num
  rw [e, r1, r2, hmin]
  rw [roundDouble_eq_of_tie (95 + 4508290876982340 / 562949953421312) 6 7248567056500872
    (by norm_num) (by norm_num [abs_of_pos]) (by norm_num [abs_of_pos]) (by norm_num)
    (by norm_num)]
  norm_num

theorem ulp_scoreB :
    calculate_priority_f64 ⟨2, "b", 40, 2, 80, 85, 97, 1700000600⟩ 1700000961
      = 7248567056500873 / 70368744177664 := by
  have e : calculate_priority_f64 ⟨2, "b", 40, 2, 80, 85, 97, 1700000600⟩ 1700000961
      = roundDouble (100 + min 30 (roundDouble (roundDouble (361 : ℚ) / 60) * (1 / 2))) := by
    norm_num [calculate_priority_f64]
  have r1 : roundDouble (361 : ℚ) = 361 := by
    rw [roundDouble_eq_of 361 8 6350779162034176 (by norm_num) (by norm_num) (by norm_num)
      (by norm_num)]
    norm_num
  have r2 : roundDouble ((361 : ℚ) / 60) = 6774164439503121 / 1125899906842624 := by
    rw [roundDouble_eq_of (361 / 60) 2 6774164439503121 (by norm_num)
      (by norm_num [abs_of_pos]) (by norm_num [abs_of_pos]) (by norm_num [abs_lt])]
    norm_num
  have hmin : min (30 : ℚ) (6774164439503121 / 1125899906842624 * (1 / 2))
      = 6774164439503121 / 2251799813685248 := by
    rw [min_eq_right (by norm_num)]
    norm_num
  rw [e, r1, r2, hmin]
  rw [roundDouble_eq_of (100 + 6774164439503121 / 2251799813685248) 6 7248567056500873
    (by norm_num) (by norm_num [abs_of_pos]) (by norm_num [abs_of_pos])
    (by norm_num [abs_lt])]
  norm_num

theorem ulp_exact_scores :
    calculate_priority ⟨1, "a", 40, 2, 80, 120, 92, 1700000000⟩ 1700000961 = 12361 / 120
      ∧ calculate_priority ⟨2, "b", 40, 2, 80, 85, 97, 1700000600⟩ 1700000961 = 12361 / 120 := by
  constructor <;> norm_num [calculate_priority]

theorem ulpStore_eq :
    ulpStore = ⟨[(2, ⟨2, "b", 40, 2, 80, 85, 97, 1700000600⟩),
      (1, ⟨1, "a", 40, 2, 80, 120, 92, 1700000000⟩)], 3⟩ := by
  decide

/-! ## The rounding error of the binary64 score -/

theorem roundHalfEven_sub_le (q : ℚ) : |(roundHalfEven q : ℚ) - q| ≤ 1 / 2 := by
  have h1 : (⌊q⌋ : ℚ) ≤ q := Int.floor_le q
  have h2 : q < (⌊q⌋ : ℚ) + 1 := Int.lt_floor_add_one q
  unfold roundHalfEven
  simp only
  rw [abs_le]
  split_ifs with c1 c2 c3
  · constructor <;> linarith
  · push_cast; constructor <;> linarith
  · constructor <;> linarith
  · push_cast; constructor <;> linarith

theorem roundDouble_sub_le (x : ℚ) : |roundDouble x - x| ≤ |x| / 9007199254740992 := by
  unfold roundDouble
  split_ifs with hx
  · simp [hx]
  · simp only
    have hpos : (0 : ℚ) < |x| := abs_pos.2 hx
    have hlo : ((2 : ℕ) : ℚ) ^ Int.log 2 |x| ≤ |x| := Int.zpow_log_le_self (by norm_num) hpos
    push_cast at hlo
    generalize Int.log 2 |x| = e at hlo ⊢
    have hulp : (0 : ℚ) < (2 : ℚ) ^ (e - 52) := by positivity
    have hsplit : (2 : ℚ) ^ e = 4503599627370496 * (2 : ℚ) ^ (e - 52) := by
      have e1 : e = 52 + (e - 52) := by ring
      conv_lhs => rw [e1]
      rw [zpow_add₀ (by norm_num : (2 : ℚ) ≠ 0)]
      norm_num
    have hq := roundHalfEven_sub_le (x / (2 : ℚ) ^ (e - 52))
    have he : (roundHalfEven (x / (2 : ℚ) ^ (e - 52)) : ℚ) * (2 : ℚ) ^ (e - 52) - x
        = ((roundHalfEven (x / (2 : ℚ) ^ (e - 52)) : ℚ) - x / (2 : ℚ) ^ (e - 52))
          * (2 : ℚ) ^ (e - 52) := by
      field_simp
    rw [he, abs_mul, abs_of_pos hulp]
    have hm := mul_le_mul_of_nonneg_right hq (le_of_lt hulp)
    have hfin : 1 / 2 * (2 : ℚ) ^ (e - 52) ≤ |x| / 9007199254740992 := by
      rw [le_div_iff₀ (by norm_num)]
      linarith
    linarith

theorem wait_bonus_f64_close (w : ℚ) (hw : 0 ≤ w) :
    |min 30 (roundDouble (roundDouble w / 60) * (1 / 2)) - min 30 (w / 60 * (1 / 2))|
      ≤ 1 / 1000000 := by
  have h1 := roundDouble_sub_le w
  have h2 := roundDouble_sub_le (roundDouble w / 60)
  have n1 := roundDouble_nonneg w hw
  have n2 := roundDouble_nonneg (roundDouble w / 60) (div_nonneg n1 (by norm_num))
  rw [abs_of_nonneg hw, abs_le] at h1
  rw [abs_of_nonneg (div_nonneg n1 (by norm_num)), abs_le] at h2
  generalize roundDouble (roundDouble w / 60) = m at h2 n2 ⊢
  generalize roundDouble w = a at h1 h2 n1
  obtain ⟨h1a, h1b⟩ := h1
  obtain ⟨h2a, h2b⟩ := h2
  rw [abs_le]
  rcases le_total (m * (1 / 2)) 30 with c1 | c1 <;>
    rcases le_total (w / 60 * (1 / 2)) 30 with c2 | c2
  · rw [min_eq_right c1, min_eq_right c2]
    constructor <;> linarith
  · rw [min_eq_right c1, min_eq_left c2]
    constructor <;> linarith
  · rw [min_eq_left c1, min_eq_right c2]
    constructor <;> linarith
  · rw [min_eq_left c1, min_eq_left c2]
    constructor <;> norm_num

theorem calculate_priority_f64_close (p : Patient) (now : Int) (h : p.inRange) :
    |calculate_priority_f64 p now - calculate_priority p now| ≤ 1 / 1000 := by
  obtain ⟨-, ⟨hs1, hs2⟩, -, -, -⟩ := h
  have q1 : ((-2147483648 : Int) : ℚ) ≤ (p.severity : ℚ) := by exact_mod_cast hs1
  have q2 : (p.severity : ℚ) ≤ ((2147483647 : Int) : ℚ) := by exact_mod_cast hs2
  push_cast at q1 q2
  have hw : (0 : ℚ) ≤ ((max 0 (now - p.arrival) : Int) : ℚ) := by
    have : (0 : Int) ≤ max 0 (now - p.arrival) := le_max_left _ _
    exact_mod_cast this
  have hclose := wait_bonus_f64_close _ hw
  unfold calculate_priority_f64 calculate_priority
  simp only
  have hb0 : (0 : ℚ) ≤ min 30
      (roundDouble (roundDouble ((max 0 (now - p.arrival) : Int) : ℚ) / 60) * (1 / 2)) := by
    apply le_min (by norm_num)
    have := roundDouble_nonneg _ (div_nonneg (roundDouble_nonneg _ hw)
      (by norm_num : (0 : ℚ) ≤ 60))
    linarith
  have hb1 : min 30
      (roundDouble (roundDouble ((max 0 (now - p.arrival) : Int) : ℚ) / 60) * (1 / 2)) ≤ 30 :=
    min_le_left _ _
  generalize min 30
    (roundDouble (roundDouble ((max 0 (now - p.arrival) : Int) : ℚ) / 60) * (1 / 2)) = wf
    at hclose hb0 hb1 ⊢
  generalize min 30 (((max 0 (now - p.arrival) : Int) : ℚ) / 60 * (1 / 2)) = we at hclose ⊢
  have key : ∀ B : ℚ, -100000000000 ≤ B → B ≤ 100000000000 →
      |roundDouble (B + wf) - (B + we)| ≤ 1 / 1000 := by
    intro B hB1 hB2
    have hr := roundDouble_sub_le (B + wf)
    have habs : |B + wf| ≤ 100000000030 := abs_le.2 ⟨by linarith, by linarith⟩
    have hr2 : |roundDouble (B + wf) - (B + wf)| ≤ 100000000030 / 9007199254740992 :=
      le_trans hr (div_le_div_of_nonneg_right habs (by norm_num))
    rw [abs_le] at hr2 hclose ⊢
    constructor <;> linarith [hr2.1, hr2.2, hclose.1, hclose.2]
  apply key <;> (push_cast; split_ifs <;> linarith)

/-! ## Exact and binary64 scores compared -/

theorem score_eq_of_lt_grid (p q : Patient) (now : Int)
    (h : |calculate_priority p now - calculate_priority q now| < 1 / 120) :
    calculate_priority p now = calculate_priority q now := by
  rw [calculate_priority_eq_score120, calculate_priority_eq_score120] at h ⊢
  rw [abs_lt] at h
  obtain ⟨h1, h2⟩ := h
  have e : (score120 p now : ℚ) / 120 - (score120 q now : ℚ) / 120
      = ((score120 p now - score120 q now : Int) : ℚ) / 120 := by push_cast; ring
  rw [e] at h1 h2
  have hd : score120 p now - score120 q now = 0 := by
    generalize score120 p now - score120 q now = d at h1 h2
    have h3 : ((-1 : Int) : ℚ) < (d : ℚ) := by push_cast; linarith
    have h4 : (d : ℚ) < ((1 : Int) : ℚ) := by push_cast; linarith
    have h5 : (-1 : Int) < d := by exact_mod_cast h3
    have h6 : d < (1 : Int) := by exact_mod_cast h4
    omega
  have : score120 p now = score120 q now := by omega
  rw [this]

theorem exact_eq_of_f64_near (p q : Patient) (now : Int) (hp : p.inRange) (hq : q.inRange)
    (h : |calculate_priority_f64 p now - calculate_priority_f64 q now| < 1 / 1000000000) :
    calculate_priority p now = calculate_priority q now := by
  apply score_eq_of_lt_grid
  have h1 := calculate_priority_f64_close p now hp
  have h2 := calculate_priority_f64_close q now hq
  rw [abs_le] at h1 h2
  rw [abs_lt] at h ⊢
  constructor <;> linarith [h1.1, h1.2, h2.1, h2.2, h.1, h.2]

theorem exact_le_of_f64_le (p q : Patient) (now : Int) (hp : p.inRange) (hq : q.inRange)
    (h : calculate_priority_f64 p now ≤ calculate_priority_f64 q now) :
    calculate_priority p now ≤ calculate_priority q now := by
  by_contra hlt
  have hlt2 : calculate_priority q now < calculate_priority p now := not_le.1 hlt
  have h1 := calculate_priority_f64_close p now hp
  have h2 := calculate_priority_f64_close q now hq
  rw [abs_le] at h1 h2
  have hnear : |calculate_priority q now - calculate_priority p now| < 1 / 120 := by
    rw [abs_lt]
    constructor <;> linarith [h1.1, h1.2, h2.1, h2.2]
  have := score_eq_of_lt_grid q p now hnear
  rw [this] at hlt2
  exact lt_irrefl _ hlt2

/-! ## The selection loop for a given evaluation of the score -/

theorem treat_patient_of_exact (s : TriageQueue) (now : Int) (out : Patient) :
    treat_patient_of calculate_priority s now out = treat_patient s now out := rfl

theorem list_queue_of_exact
    (sort : (Patient → Patient → Bool) → List Patient → List Patient)
    (s : TriageQueue) (now : Int) :
    list_queue_of calculate_priority sort s now = list_queue sort s now := rfl

theorem treat_step_of_first (score : Patient → Int → ℚ) (now : Int) (kv : Int × Patient)
    (h : Best.start.best_pr < score kv.2 now) :
    treat_step_of score now Best.start kv = ⟨kv.1, score kv.2 now, kv.2.arrival⟩ := by
  unfold treat_step_of
  simp only
  rw [if_pos (Or.inl h)]

theorem scanInvOf_first (score : Patient → Int → ℚ) (now : Int) (kv : Int × Patient)
    (h : Best.start.best_pr < score kv.2 now) :
    ScanInvOf score now [kv] (treat_step_of score now Best.start kv) := by
  rw [treat_step_of_first score now kv h]
  refine ⟨⟨kv, by simp, rfl, rfl, rfl⟩, ?_⟩
  intro q hq
  simp only [List.mem_singleton] at hq
  subst hq
  exact ⟨le_refl _, fun _ => le_refl _⟩

theorem scanInvOf_step (score : Patient → Int → ℚ) (now : Int) (l : PatientMap) (b : Best)
    (kv : Int × Patient) (h : ScanInvOf score now l b)
    (hsep : ∀ w ∈ l, |score kv.2 now - score w.2 now| < 1 / 1000000000 →
      score kv.2 now = score w.2 now) :
    ScanInvOf score now (l ++ [kv]) (treat_step_of score now b kv) := by
  obtain ⟨⟨w, hw, hwid, hwpr, hwarr⟩, hall⟩ := h
  unfold treat_step_of
  simp only
  by_cases hgt : score kv.2 now > b.best_pr
  · rw [if_pos (Or.inl hgt)]
    refine ⟨⟨kv, by simp, rfl, rfl, rfl⟩, ?_⟩
    intro q hq
    rcases List.mem_append.1 hq with hq | hq
    · have hle := (hall q hq).1
      refine ⟨le_of_lt (lt_of_le_of_lt hle hgt), fun he => ?_⟩
      exact absurd he (ne_of_lt (lt_of_le_of_lt hle hgt))
    · simp only [List.mem_singleton] at hq
      subst hq
      exact ⟨le_refl _, fun _ => le_refl _⟩
  · by_cases htie : |score kv.2 now - b.best_pr| < 1 / 1000000000
        ∧ kv.2.arrival < b.best_arrival
    · rw [if_pos (Or.inr htie)]
      have heq : score kv.2 now = b.best_pr := by
        rw [← hwpr]
        apply hsep w hw
        rw [hwpr]
        exact htie.1
      refine ⟨⟨kv, by simp, rfl, rfl, rfl⟩, ?_⟩
      intro q hq
      rcases List.mem_append.1 hq with hq | hq
      · obtain ⟨hle, harr⟩ := hall q hq
        refine ⟨by rw [heq]; exact hle, fun he => ?_⟩
        have := harr (by rw [he, heq])
        exact le_of_lt (lt_of_lt_of_le htie.2 this)
      · simp only [List.mem_singleton] at hq
        subst hq
        exact ⟨le_refl _, fun _ => le_refl _⟩
    · rw [if_neg (by rintro (h1 | h1); exact hgt h1; exact htie h1)]
      refine ⟨⟨w, List.mem_append_left _ hw, hwid, hwpr, hwarr⟩, ?_⟩
      intro q hq
      rcases List.mem_append.1 hq with hq | hq
      · exact hall q hq
      · simp only [List.mem_singleton] at hq
        subst hq
        have hle : score q.2 now ≤ b.best_pr := not_lt.1 hgt
        refine ⟨hle, fun he => ?_⟩
        by_contra hlt
        apply htie
        refine ⟨?_, not_le.1 hlt⟩
        rw [he]
        norm_num

theorem scanInvOf_foldl (score : Patient → Int → ℚ) (now : Int) (l2 : PatientMap) :
    ∀ (l1 : PatientMap) (b : Best), ScanInvOf score now l1 b →
      ScoresSeparated score now (mapValues (l1 ++ l2)) →
      ScanInvOf score now (l1 ++ l2) (l2.foldl (treat_step_of score now) b) := by
  induction l2 with
  | nil => intro l1 b h _; simpa using h
  | cons kv rest ih =>
    intro l1 b h hsep
    have hstep : ScanInvOf score now (l1 ++ [kv]) (treat_step_of score now b kv) := by
      apply scanInvOf_step score now l1 b kv h
      intro w hw
      apply hsep
      · simp [mapValues]
      · exact List.mem_map.2 ⟨w, List.mem_append_left _ hw, rfl⟩
    have h1 := ih (l1 ++ [kv]) (treat_step_of score now b kv) hstep
      (by simpa [List.append_assoc] using hsep)
    simpa [List.append_assoc] using h1

theorem scanInvOf_treat_scan (score : Patient → Int → ℚ) (now : Int) (m : PatientMap)
    (hne : m ≠ []) (hstart : ∀ p ∈ mapValues m, Best.start.best_pr < score p now)
    (hsep : ScoresSeparated score now (mapValues m)) :
    ScanInvOf score now m (treat_scan_of score now m) := by
  cases m with
  | nil => exact absurd rfl hne
  | cons kv rest =>
    have h0 : Best.start.best_pr < score kv.2 now := hstart kv.2 (by simp [mapValues])
    have := scanInvOf_foldl score now rest [kv] (treat_step_of score now Best.start kv)
      (scanInvOf_first score now kv h0) (by simpa using hsep)
    simpa [treat_scan_of] using this

theorem treat_patient_of_found (score : Patient → Int → ℚ) (s : TriageQueue) (now : Int)
    (out : Patient) (hne : s.patients ≠ []) (hk : KeysNodup s) (kv : Int × Patient)
    (hmem : kv ∈ s.patients) (hid : kv.1 = (treat_scan_of score now s.patients).best_id) :
    treat_patient_of score s now out
      = (true, kv.2, ⟨mapErase s.patients kv.1, s.next_id⟩) := by
  have hfind : mapFind s.patients kv.1 = some kv.2 :=
    mapFind_eq_some_of_mem s.patients kv.1 kv.2 hk hmem
  have hidx : mapIndex s.patients kv.1 = (kv.2, s.patients) := by
    simp only [mapIndex, hfind]
  have he : s.patients.isEmpty = false := by
    cases hs : s.patients with
    | nil => exact absurd hs hne
    | cons a l => rfl
  unfold treat_patient_of
  rw [he]
  simp only [Bool.false_eq_true, if_false, ← hid, hidx]

/-! ## The selection loop of the compiled program keeps a record of maximal exact score -/

theorem scanInvMax_first (now : Int) (kv : Int × Patient) (h : kv.2.inRange) :
    ScanInvMax now [kv] (treat_step_of calculate_priority_f64 now Best.start kv) := by
  rw [treat_step_of_first calculate_priority_f64 now kv
    (calculate_priority_f64_gt_start kv.2 now h)]
  refine ⟨kv, by simp, rfl, rfl, rfl, ?_⟩
  intro q hq
  simp only [List.mem_singleton] at hq
  subst hq
  exact le_refl _

theorem scanInvMax_step (now : Int) (l : PatientMap) (b : Best) (kv : Int × Patient)
    (h : ScanInvMax now l b) (hr : ∀ q ∈ l, q.2.inRange) (hkv : kv.2.inRange) :
    ScanInvMax now (l ++ [kv]) (treat_step_of calculate_priority_f64 now b kv) := by
  obtain ⟨w, hw, hwid, hwpr, hwarr, hall⟩ := h
  have hwr : w.2.inRange := hr w hw
  unfold treat_step_of
  simp only
  by_cases hgt : calculate_priority_f64 kv.2 now > b.best_pr
  · rw [if_pos (Or.inl hgt)]
    have hle : calculate_priority w.2 now ≤ calculate_priority kv.2 now := by
      apply exact_le_of_f64_le w.2 kv.2 now hwr hkv
      rw [hwpr]
      exact le_of_lt hgt
    refine ⟨kv, by simp, rfl, rfl, rfl, ?_⟩
    intro q hq
    rcases List.mem_append.1 hq with hq | hq
    · exact le_trans (hall q hq) hle
    · simp only [List.mem_singleton] at hq
      subst hq
      exact le_refl _
  · by_cases htie : |calculate_priority_f64 kv.2 now - b.best_pr| < 1 / 1000000000
        ∧ kv.2.arrival < b.best_arrival
    · rw [if_pos (Or.inr htie)]
      have heq : calculate_priority kv.2 now = calculate_priority w.2 now := by
        apply exact_eq_of_f64_near kv.2 w.2 now hkv hwr
        rw [hwpr]
        exact htie.1
      refine ⟨kv, by simp, rfl, rfl, rfl, ?_⟩
      intro q hq
      rcases List.mem_append.1 hq with hq | hq
      · rw [heq]; exact hall q hq
      · simp only [List.mem_singleton] at hq
        subst hq
        exact le_refl _
    · rw [if_neg (by rintro (h1 | h1); exact hgt h1; exact htie h1)]
      refine ⟨w, List.mem_append_left _ hw, hwid, hwpr, hwarr, ?_⟩
      intro q hq
      rcases List.mem_append.1 hq with hq | hq
      · exact hall q hq
      · simp only [List.mem_singleton] at hq
        subst hq
        apply exact_le_of_f64_le q.2 w.2 now hkv hwr
        rw [hwpr]
        exact not_lt.1 hgt

theorem scanInvMax_foldl (now : Int) (l2 : PatientMap) :
    ∀ (l1 : PatientMap) (b : Best), ScanInvMax now l1 b →
      (∀ q ∈ l1 ++ l2, q.2.inRange) →
      ScanInvMax now (l1 ++ l2) (l2.foldl (treat_step_of calculate_priority_f64 now) b) := by
  induction l2 with
  | nil => intro l1 b h _; simpa using h
  | cons kv rest ih =>
    intro l1 b h hr
    have hstep := scanInvMax_step now l1 b kv h
      (fun q hq => hr q (List.mem_append_left _ hq)) (hr kv (by simp))
    have h1 := ih (l1 ++ [kv]) (treat_step_of calculate_priority_f64 now b kv) hstep
      (by simpa [List.append_assoc] using hr)
    simpa [List.append_assoc] using h1

theorem scanInvMax_treat_scan (now : Int) (m : PatientMap) (hne : m ≠ [])
    (hr : ∀ q ∈ m, q.2.inRange) :
    ScanInvMax now m (treat_scan_of calculate_priority_f64 now m) := by
  cases m with
  | nil => exact absurd rfl hne
  | cons kv rest =>
    have := scanInvMax_foldl now rest [kv]
      (treat_step_of calculate_priority_f64 now Best.start kv)
      (scanInvMax_first now kv (hr kv (by simp))) (by simpa using hr)
    simpa [treat_scan_of] using this

/-! ## `treat_patient` of the compiled program -/

theorem treat_patient_f64_nonempty (s : TriageQueue) (now : Int) (out : Patient)
    (hne : s.patients ≠ []) (hk : KeysNodup s) (hr : RecordsInRange s) :
    ∃ kv ∈ s.patients,
      treat_patient_f64 s now out = (true, kv.2, ⟨mapErase s.patients kv.1, s.next_id⟩)
      ∧ (∀ q ∈ s.patients, calculate_priority q.2 now ≤ calculate_priority kv.2 now)
      ∧ (ScoresSeparated calculate_priority_f64 now (mapValues s.patients) →
          ∀ q ∈ s.patients, calculate_priority_f64 q.2 now ≤ calculate_priority_f64 kv.2 now
            ∧ (calculate_priority_f64 q.2 now = calculate_priority_f64 kv.2 now
                → kv.2.arrival ≤ q.2.arrival)) := by
  have hr2 : ∀ q ∈ s.patients, q.2.inRange :=
    fun q hq => hr q.2 (List.mem_map.2 ⟨q, hq, rfl⟩)
  obtain ⟨kv, hmem, hid, hpr, harr, hmax⟩ := scanInvMax_treat_scan now s.patients hne hr2
  refine ⟨kv, hmem, treat_patient_of_found calculate_priority_f64 s now out hne hk kv hmem hid,
    hmax, ?_⟩
  intro hsep q hq
  have hstart : ∀ p ∈ mapValues s.patients,
      Best.start.best_pr < calculate_priority_f64 p now :=
    fun p hp => calculate_priority_f64_gt_start p now (hr p hp)
  obtain ⟨⟨w, hw, hwid, hwpr, hwarr⟩, hall⟩ :=
    scanInvOf_treat_scan calculate_priority_f64 now s.patients hne hstart hsep
  obtain ⟨h1, h2⟩ := hall q hq
  rw [hpr, harr]
  exact ⟨h1, h2⟩

theorem treat_patient_of_pair_take (score : Patient → Int → ℚ) (k1 k2 n now : Int)
    (p1 p2 out : Patient) (hk : k1 ≠ k2) (h1 : Best.start.best_pr < score p1 now)
    (hc : score p2 now > score p1 now
      ∨ (|score p2 now - score p1 now| < 1 / 1000000000 ∧ p2.arrival < p1.arrival)) :
    treat_patient_of score ⟨[(k1, p1), (k2, p2)], n⟩ now out
      = (true, p2, ⟨[(k1, p1)], n⟩) := by
  have hstep1 := treat_step_of_first score now (k1, p1) h1
  have hscan : treat_scan_of score now [(k1, p1), (k2, p2)]
      = ⟨k2, score p2 now, p2.arrival⟩ := by
    show treat_step_of score now (treat_step_of score now Best.start (k1, p1)) (k2, p2) = _
    rw [hstep1]
    unfold treat_step_of
    simp only
    rw [if_pos hc]
  unfold treat_patient_of
  simp [hscan, mapIndex, mapFind, mapErase, hk, hk.symm]

theorem treat_patient_of_pair_keep (score : Patient → Int → ℚ) (k1 k2 n now : Int)
    (p1 p2 out : Patient) (hk : k1 ≠ k2) (h1 : Best.start.best_pr < score p1 now)
    (hc : ¬ (score p2 now > score p1 now
      ∨ (|score p2 now - score p1 now| < 1 / 1000000000 ∧ p2.arrival < p1.arrival))) :
    treat_patient_of score ⟨[(k1, p1), (k2, p2)], n⟩ now out
      = (true, p1, ⟨[(k2, p2)], n⟩) := by
  have hstep1 := treat_step_of_first score now (k1, p1) h1
  have hscan : treat_scan_of score now [(k1, p1), (k2, p2)]
      = ⟨k1, score p1 now, p1.arrival⟩ := by
    show treat_step_of score now (treat_step_of score now Best.start (k1, p1)) (k2, p2) = _
    rw [hstep1]
    unfold treat_step_of
    simp only
    rw [if_neg hc]
  unfold treat_patient_of
  simp [hscan, mapIndex, mapFind, mapErase, hk, hk.symm]

theorem ulp_treat_b_first :
    treat_patient_f64 ulpStore 1700000961 default
      = (true, ⟨1, "a", 40, 2, 80, 120, 92, 1700000000⟩,
          ⟨[(2, ⟨2, "b", 40, 2, 80, 85, 97, 1700000600⟩)], 3⟩) := by
  rw [ulpStore_eq]
  apply treat_patient_of_pair_take calculate_priority_f64 2 1 3 1700000961
  · decide
  · rw [ulp_scoreB]
    show (-1000000000000000000 : ℚ) < _
    norm_num
  · right
    rw [ulp_scoreA, ulp_scoreB]
    constructor
    · rw [abs_lt]
      constructor <;> norm_num
    · show (1700000000 : Int) < 1700000600
      decide

theorem ulp_treat_a_first :
    treat_patient_f64 ⟨ulpStore.patients.reverse, ulpStore.next_id⟩ 1700000961 default
      = (true, ⟨2, "b", 40, 2, 80, 85, 97, 1700000600⟩,
          ⟨[(1, ⟨1, "a", 40, 2, 80, 120, 92, 1700000000⟩)], 3⟩) := by
  rw [ulpStore_eq]
  apply treat_patient_of_pair_take calculate_priority_f64 1 2 3 1700000961
  · decide
  · rw [ulp_scoreA]
    show (-1000000000000000000 : ℚ) < _
    norm_num
  · left
    rw [ulp_scoreA, ulp_scoreB]
    norm_num

/-- C2, counterexample: patient `a` (severity 2, spo2 92, arrival 1700000000) and patient
`b` (severity 2, sbp 85, arrival 1700000600) have the same exact score 12361/120 at clock
value 1700000961, but their `double` scores differ in the last bit, `b` being the higher.
When the map iterates `b` first, `treat_patient` returns `a`, whose computed score is below
that of `b`; when it iterates `a` first, it returns `b`, although `a` is within 1e-9 and
arrived earlier.  The claim fails for both iteration orders. -/
theorem C2_counterexample_last_bit :
    ulpStore.patients ≠ [] ∧ KeysNodup ulpStore ∧ RecordsInRange ulpStore
      ∧ ulpStore.patients.reverse.Perm ulpStore.patients
      ∧ (treat_patient_f64 ulpStore 1700000961 default).2.1
          = ⟨1, "a", 40, 2, 80, 120, 92, 1700000000⟩
      ∧ (⟨2, "b", 40, 2, 80, 85, 97, 1700000600⟩ : Patient) ∈ mapValues ulpStore.patients
      ∧ ¬ (calculate_priority_f64 ⟨2, "b", 40, 2, 80, 85, 97, 1700000600⟩ 1700000961
            ≤ calculate_priority_f64 (treat_patient_f64 ulpStore 1700000961 default).2.1
                1700000961)
      ∧ (treat_patient_f64 ⟨ulpStore.patients.reverse, ulpStore.next_id⟩ 1700000961 default).2.1
          = ⟨2, "b", 40, 2, 80, 85, 97, 1700000600⟩
      ∧ (⟨1, "a", 40, 2, 80, 120, 92, 1700000000⟩ : Patient) ∈ mapValues ulpStore.patients
      ∧ |calculate_priority_f64 ⟨1, "a", 40, 2, 80, 120, 92, 1700000000⟩ 1700000961
            - calculate_priority_f64
                (treat_patient_f64 ⟨ulpStore.patients.reverse, ulpStore.next_id⟩
                  1700000961 default).2.1 1700000961| < 1 / 1000000000
      ∧ ¬ ((treat_patient_f64 ⟨ulpStore.patients.reverse, ulpStore.next_id⟩
              1700000961 default).2.1.arrival
            ≤ (⟨1, "a", 40, 2, 80, 120, 92, 1700000000⟩ : Patient).arrival) := by
  have t1 : (treat_patient_f64 ulpStore 1700000961 default).2.1
      = ⟨1, "a", 40, 2, 80, 120, 92, 1700000000⟩ := by
    rw [ulp_treat_b_first]
  have t2 : (treat_patient_f64 ⟨ulpStore.patients.reverse, ulpStore.next_id⟩
      1700000961 default).2.1 = ⟨2, "b", 40, 2, 80, 85, 97, 1700000600⟩ := by
    rw [ulp_treat_a_first]
  refine ⟨by decide, by decide, by decide, List.reverse_perm _, t1, by decide, ?_, t2,
    by decide, ?_, ?_⟩
  · rw [t1, ulp_scoreA, ulp_scoreB]
    norm_num
  · rw [t2, ulp_scoreA, ulp_scoreB]
    norm_num [abs_lt]
  · rw [t2]
    norm_num

/-- C2, amended: on a non-empty store, whatever the iteration order `order` of the map, the
record `treat_patient` returns was in the store and no stored record has a higher score in
exact arithmetic; if moreover no two stored records have computed (`double`) scores that
differ by less than 1e-9 without being equal, then no stored record has a higher computed
score either, and every stored record whose computed score is within 1e-9 of the returned
one arrived no earlier. -/
theorem C2_treat_patient_f64_returns_maximum (s : TriageQueue) (order : PatientMap)
    (now : Int) (out : Patient) (hord : order.Perm s.patients) (hne : s.patients ≠ [])
    (hk : KeysNodup s) (hr : RecordsInRange s) :
    (treat_patient_f64 ⟨order, s.next_id⟩ now out).1 = true
      ∧ (treat_patient_f64 ⟨order, s.next_id⟩ now out).2.1 ∈ mapValues s.patients
      ∧ (∀ q ∈ mapValues s.patients,
          calculate_priority q now
            ≤ calculate_priority (treat_patient_f64 ⟨order, s.next_id⟩ now out).2.1 now)
      ∧ (ScoresSeparated calculate_priority_f64 now (mapValues s.patients) →
          ∀ q ∈ mapValues s.patients,
            calculate_priority_f64 q now
                ≤ calculate_priority_f64 (treat_patient_f64 ⟨order, s.next_id⟩ now out).2.1 now
              ∧ (|calculate_priority_f64 q now
                    - calculate_priority_f64
                        (treat_patient_f64 ⟨order, s.next_id⟩ now out).2.1 now|
                    < 1 / 1000000000
                  → (treat_patient_f64 ⟨order, s.next_id⟩ now out).2.1.arrival ≤ q.arrival)) := by
  have hne2 : order ≠ [] := by
    intro h
    rw [h] at hord
    exact hne (List.Perm.nil_eq hord).symm
  have hk2 : KeysNodup ⟨order, s.next_id⟩ := by
    unfold KeysNodup mapKeys at *
    exact ((hord.map Prod.fst).nodup_iff).2 hk
  have hr2 : RecordsInRange ⟨order, s.next_id⟩ := by
    intro q hq
    exact hr q (((hord.map Prod.snd).mem_iff).1 hq)
  obtain ⟨kv, hmem, hres, hmax, hsepmax⟩ :=
    treat_patient_f64_nonempty ⟨order, s.next_id⟩ now out hne2 hk2 hr2
  rw [hres]
  have hkvin : kv.2 ∈ mapValues s.patients :=
    List.mem_map.2 ⟨kv, (hord.mem_iff).1 hmem, rfl⟩
  refine ⟨rfl, hkvin, ?_, ?_⟩
  · intro q hq
    obtain ⟨kq, hkq, rfl⟩ := List.mem_map.1 hq
    exact hmax kq ((hord.mem_iff).2 hkq)
  · intro hsep q hq
    have hsep2 : ScoresSeparated calculate_priority_f64 now (mapValues order) := by
      intro a ha b hb
      exact hsep a (((hord.map Prod.snd).mem_iff).1 ha) b (((hord.map Prod.snd).mem_iff).1 hb)
    obtain ⟨kq, hkq, rfl⟩ := List.mem_map.1 hq
    obtain ⟨h1, h2⟩ := hsepmax hsep2 kq ((hord.mem_iff).2 hkq)
    exact ⟨h1, fun hnear => h2 (hsep kq.2 hq kv.2 hkvin hnear)⟩

theorem roundDouble_zero : roundDouble 0 = 0 := by
  simp [roundDouble]

theorem scenario_f64_scoreA :
    calculate_priority_f64 ⟨1, "A", 40, 1, 80, 120, 97, 1000⟩ 1000 = 100 := by
  have e : calculate_priority_f64 ⟨1, "A", 40, 1, 80, 120, 97, 1000⟩ 1000
      = roundDouble 100 := by
    norm_num [calculate_priority_f64, roundDouble_zero]
  rw [e, roundDouble_eq_of 100 6 7036874417766400 (by norm_num) (by norm_num) (by norm_num)
    (by norm_num)]
  norm_num

theorem scenario_f64_scoreB :
    calculate_priority_f64 ⟨2, "B", 70, 3, 140, 85, 88, 1000⟩ 1000 = 120 := by
  have e : calculate_priority_f64 ⟨2, "B", 70, 3, 140, 85, 88, 1000⟩ 1000
      = roundDouble 120 := by
    norm_num [calculate_priority_f64, roundDouble_zero]
  rw [e, roundDouble_eq_of 120 6 8444249301319680 (by norm_num) (by norm_num) (by norm_num)
    (by norm_num)]
  norm_num

theorem scenarioStore_eq :
    scenarioStore = ⟨[(2, ⟨2, "B", 70, 3, 140, 85, 88, 1000⟩),
      (1, ⟨1, "A", 40, 1, 80, 120, 97, 1000⟩)], 3⟩ := by
  decide

theorem scenarioStore_separated :
    ScoresSeparated calculate_priority_f64 1000 (mapValues scenarioStore.patients) := by
  rw [scenarioStore_eq]
  intro p hp q hq hnear
  simp only [mapValues, List.map_cons, List.map_nil, List.mem_cons, List.mem_singleton,
    List.not_mem_nil, or_false] at hp hq
  rcases hp with rfl | rfl <;> rcases hq with rfl | rfl
  · rfl
  · rw [scenario_f64_scoreA, scenario_f64_scoreB] at hnear
    norm_num [abs_lt] at hnear
  · rw [scenario_f64_scoreA, scenario_f64_scoreB] at hnear
    norm_num [abs_lt] at hnear
  · rfl

/-- C2, witness of the amended statement: the store of the scenario of the specification
(computed scores 100 and 120), iterated in the reverse of its stored order. -/
theorem C2_treat_patient_f64_returns_maximum_witness :
    scenarioStore.patients.reverse.Perm scenarioStore.patients
      ∧ scenarioStore.patients ≠ [] ∧ KeysNodup scenarioStore ∧ RecordsInRange scenarioStore
      ∧ ScoresSeparated calculate_priority_f64 1000 (mapValues scenarioStore.patients)
      ∧ (treat_patient_f64 ⟨scenarioStore.patients.reverse, scenarioStore.next_id⟩
            1000 default).1 = true
      ∧ (∀ q ∈ mapValues scenarioStore.patients,
          calculate_priority q 1000
            ≤ calculate_priority
                (treat_patient_f64 ⟨scenarioStore.patients.reverse, scenarioStore.next_id⟩
                  1000 default).2.1 1000)
      ∧ (∀ q ∈ mapValues scenarioStore.patients,
          calculate_priority_f64 q 1000
              ≤ calculate_priority_f64
                  (treat_patient_f64 ⟨scenarioStore.patients.reverse, scenarioStore.next_id⟩
                    1000 default).2.1 1000
            ∧ (|calculate_priority_f64 q 1000
                  - calculate_priority_f64
                      (treat_patient_f64 ⟨scenarioStore.patients.reverse, scenarioStore.next_id⟩
                        1000 default).2.1 1000| < 1 / 1000000000
                → (treat_patient_f64 ⟨scenarioStore.patients.reverse, scenarioStore.next_id⟩
                    1000 default).2.1.arrival ≤ q.arrival)) :=
  ⟨List.reverse_perm _, by decide, by decide, by decide, scenarioStore_separated,
    (C2_treat_patient_f64_returns_maximum scenarioStore scenarioStore.patients.reverse 1000
      default (List.reverse_perm _) (by decide) (by decide) (by decide)).1,
    (C2_treat_patient_f64_returns_maximum scenarioStore scenarioStore.patients.reverse 1000
      default (List.reverse_perm _) (by decide) (by decide) (by decide)).2.2.1,
    (C2_treat_patient_f64_returns_maximum scenarioStore scenarioStore.patients.reverse 1000
      default (List.reverse_perm _) (by decide) (by decide) (by decide)).2.2.2
      scenarioStore_separated⟩

/-! ## `list_queue` of the compiled program against `treat_patient` -/

theorem list_queue_cmp_of_iff (score : Patient → Int → ℚ) (now : Int) (a b : Patient) :
    list_queue_cmp_of score now a b = true ↔
      score a now > score b now ∨ (score a now = score b now ∧ a.arrival < b.arrival) := by
  unfold list_queue_cmp_of
  simp only
  by_cases h : score a now = score b now
  · simp [h]
  · simp only [ne_eq, h, not_false_eq_true, if_true, decide_eq_true_eq, false_and, or_false]

theorem list_queue_cmp_of_false_iff (score : Patient → Int → ℚ) (now : Int) (a b : Patient) :
    list_queue_cmp_of score now b a = false ↔
      score a now > score b now ∨ (score a now = score b now ∧ a.arrival ≤ b.arrival) := by
  rw [← Bool.not_eq_true, list_queue_cmp_of_iff]
  constructor
  · intro h
    rcases lt_trichotomy (score a now) (score b now) with h1 | h1 | h1
    · exact absurd (Or.inl h1) h
    · refine Or.inr ⟨h1, ?_⟩
      by_contra h2
      exact h (Or.inr ⟨h1.symm, not_le.1 h2⟩)
    · exact Or.inl h1
  · rintro (h | ⟨h1, h2⟩) (h3 | ⟨h3, h4⟩)
    · exact lt_asymm h h3
    · rw [h3] at h; exact lt_irrefl _ h
    · rw [h1] at h3; exact lt_irrefl _ h3
    · omega

theorem list_queue_cmp_of_strictWeak (score : Patient → Int → ℚ) (now : Int) :
    StrictWeak (list_queue_cmp_of score now) := by
  refine ⟨?_, ?_, ?_⟩
  · intro a
    rw [list_queue_cmp_of_false_iff]
    exact Or.inr ⟨rfl, le_refl _⟩
  · intro a b c hab hbc
    rw [list_queue_cmp_of_iff] at *
    rcases hab with h1 | ⟨h1, h2⟩ <;> rcases hbc with h3 | ⟨h3, h4⟩
    · exact Or.inl (lt_trans h3 h1)
    · exact Or.inl (by rw [← h3]; exact h1)
    · exact Or.inl (by rw [h1]; exact h3)
    · exact Or.inr ⟨h1.trans h3, lt_trans h2 h4⟩
  · intro a b c hab hba hbc hcb
    rw [list_queue_cmp_of_false_iff] at hab hba hbc hcb
    have e1 : score a now = score b now := by
      rcases hab with h | h <;> rcases hba with h2 | h2
      · exact absurd h (lt_asymm h2)
      · exact h2.1
      · exact h.1.symm
      · exact h2.1
    have e2 : score b now = score c now := by
      rcases hbc with h | h <;> rcases hcb with h2 | h2
      · exact absurd h (lt_asymm h2)
      · exact h2.1
      · exact h.1.symm
      · exact h2.1
    have a1 : a.arrival = b.arrival := by
      rcases hab with h | h <;> rcases hba with h2 | h2
      · exact absurd h (lt_asymm h2)
      · rw [h2.1] at h; exact absurd h (lt_irrefl _)
      · rw [h.1] at h2; exact absurd h2 (lt_irrefl _)
      · exact le_antisymm h2.2 h.2
    have a2 : b.arrival = c.arrival := by
      rcases hbc with h | h <;> rcases hcb with h2 | h2
      · exact absurd h (lt_asymm h2)
      · rw [h2.1] at h; exact absurd h (lt_irrefl _)
      · rw [h.1] at h2; exact absurd h2 (lt_irrefl _)
      · exact le_antisymm h2.2 h.2
    exact ⟨(list_queue_cmp_of_false_iff score now c a).2
        (Or.inr ⟨(e1.trans e2).symm, by omega⟩),
      (list_queue_cmp_of_false_iff score now a c).2 (Or.inr ⟨e1.trans e2, by omega⟩)⟩

theorem head_of_sorted_pair (cmp : Patient → Patient → Bool) (x y : Patient)
    (out : List Patient) (hperm : out.Perm [x, y]) (hxy : cmp x y = true)
    (hord : List.Pairwise (fun a b => cmp b a = false) out) : out.head? = some x := by
  have hlen : out.length = 2 := by simpa using hperm.length_eq
  cases out with
  | nil => simp at hlen
  | cons u t =>
    cases t with
    | nil => simp at hlen
    | cons v t2 =>
      cases t2 with
      | cons w t3 => simp at hlen
      | nil =>
        have hu : u = x ∨ u = y := by
          have := (hperm.mem_iff).1 (List.mem_cons_self u [v])
          simpa using this
        have hxin : x = u ∨ x = v := by
          have := (hperm.mem_iff).2 (List.mem_cons_self x [y])
          simpa using this
        have hvin : v = x ∨ v = y := by
          have := (hperm.mem_iff).1 (List.mem_cons_of_mem u (List.mem_singleton_self v))
          simpa using this
        have hrel : cmp v u = false := by
          have := List.pairwise_cons.1 hord
          exact this.1 v (List.mem_singleton_self v)
        rcases hu with h | h
        · rw [h]; rfl
        · exfalso
          have hvx : v = x := by
            rcases hxin with h2 | h2
            · rcases hvin with h3 | h3
              · exact h3
              · rw [h3, ← h, ← h2]
            · exact h2.symm
          rw [hvx, h, hxy] at hrel
          exact Bool.noConfusion hrel

/-- C4, the code at the failing input: patient `a` (id 1, severity 2, spo2 92, inserted at
1700000000) and patient `b` (id 2, severity 2, sbp 85, inserted at 1700000600) have the
same exact score 12361/120 at clock value 1700000961, and `double` scores one unit in the
last place apart, `b` being the higher.  `treat_patient` finds the two scores within 1e-9
and returns `a`, the earlier arrival; `list_queue` finds them different (`pa != pb`) and,
with every `std::sort` that meets the contract of the standard, lists `b` first. -/
theorem C4_list_head_differs_from_treated :
    ulpStore.patients ≠ [] ∧ KeysNodup ulpStore ∧ RecordsInRange ulpStore
      ∧ calculate_priority ⟨1, "a", 40, 2, 80, 120, 92, 1700000000⟩ 1700000961 = 12361 / 120
      ∧ calculate_priority ⟨2, "b", 40, 2, 80, 85, 97, 1700000600⟩ 1700000961 = 12361 / 120
      ∧ calculate_priority_f64 ⟨1, "a", 40, 2, 80, 120, 92, 1700000000⟩ 1700000961
          = 7248567056500872 / 70368744177664
      ∧ calculate_priority_f64 ⟨2, "b", 40, 2, 80, 85, 97, 1700000600⟩ 1700000961
          = 7248567056500873 / 70368744177664
      ∧ (treat_patient_f64 ulpStore 1700000961 default).1 = true
      ∧ (treat_patient_f64 ulpStore 1700000961 default).2.1
          = ⟨1, "a", 40, 2, 80, 120, 92, 1700000000⟩
      ∧ (∀ sort : (Patient → Patient → Bool) → List Patient → List Patient, StdSort sort →
          (list_queue_f64 sort ulpStore 1700000961).head?
            = some ⟨2, "b", 40, 2, 80, 85, 97, 1700000600⟩)
      ∧ (list_queue_f64 stableSort ulpStore 1700000961).head?
          = some ⟨2, "b", 40, 2, 80, 85, 97, 1700000600⟩
      ∧ ((list_queue_f64 stableSort ulpStore 1700000961).head?).map Patient.id
          ≠ some (treat_patient_f64 ulpStore 1700000961 default).2.1.id := by
  have t0 : (treat_patient_f64 ulpStore 1700000961 default).1 = true := by
    rw [ulp_treat_b_first]
  have t1 : (treat_patient_f64 ulpStore 1700000961 default).2.1
      = ⟨1, "a", 40, 2, 80, 120, 92, 1700000000⟩ := by
    rw [ulp_treat_b_first]
  have hcmp : list_queue_cmp_of calculate_priority_f64 1700000961
      ⟨2, "b", 40, 2, 80, 85, 97, 1700000600⟩ ⟨1, "a", 40, 2, 80, 120, 92, 1700000000⟩
      = true := by
    rw [list_queue_cmp_of_iff, ulp_scoreA, ulp_scoreB]
    left
    norm_num
  have hlist : ∀ sort : (Patient → Patient → Bool) → List Patient → List Patient,
      StdSort sort →
      (list_queue_f64 sort ulpStore 1700000961).head?
        = some ⟨2, "b", 40, 2, 80, 85, 97, 1700000600⟩ := by
    intro sort hsort
    have hsw := list_queue_cmp_of_strictWeak calculate_priority_f64 1700000961
    have hperm := hsort.perm (list_queue_cmp_of calculate_priority_f64 1700000961)
      (mapValues ulpStore.patients) hsw
    have hord := hsort.ordered (list_queue_cmp_of calculate_priority_f64 1700000961)
      (mapValues ulpStore.patients) hsw
    have hvals : mapValues ulpStore.patients
        = [⟨2, "b", 40, 2, 80, 85, 97, 1700000600⟩,
            ⟨1, "a", 40, 2, 80, 120, 92, 1700000000⟩] := by
      rw [ulpStore_eq]
      rfl
    rw [hvals] at hperm
    exact head_of_sorted_pair _ _ _ _ hperm hcmp hord
  refine ⟨by decide, by decide, by decide, ulp_exact_scores.1, ulp_exact_scores.2,
    ulp_scoreA, ulp_scoreB, t0, t1, hlist, hlist stableSort stableSort_stdSort, ?_⟩
  rw [hlist stableSort stableSort_stdSort, t1]
  decide

end HospitalQueue
